import Mathlib

/-!
# Verification of the party-game session manager

Shallow embedding of the server-side game session manager
(`server/gameManager.js`, primary version of the `Game` and `GameManager`
classes, and the `join-game` handler of `server/index.js`).

Modelling conventions:
* JavaScript `Map` objects are embedded as association lists in insertion
  order; `Map.set` replaces in place or appends, `Map.delete` removes the
  entry, iteration follows insertion order.
* `Math.random()`-driven choices (prompt draw, in-group shuffles, the
  `matches.sort(() => Math.random() - 0.5)` reorder, bot vote picks) are
  supplied by an explicit `Oracle` of choice functions; theorems that need
  it assume the shuffles permute their input, which Fisher-Yates and
  `Array.prototype.sort` guarantee.
* Scores are JavaScript numbers that only ever receive integer increments;
  they are embedded as `Int`.  `Math.floor((v / totalVotes) * 1000)` is
  embedded as the exact natural division `v * 1000 / totalVotes`; for the
  vote counts reachable here (at most 8 voters) the double-precision
  computation agrees with the exact one.
* `emit` notifications, `setTimeout`-deferred continuations (the 5s match
  advance, the 5s round advance) and the asynchronous bot-answer
  generation are outside the synchronous state transition a handler
  performs and are dropped from the embedded step; comments mark each spot.
-/

/-- JS `Map.get`, on an insertion-ordered association list. -/
def alistGet {κ β : Type} [DecidableEq κ] (m : List (κ × β)) (k : κ) : Option β :=
  (m.find? (fun pr => decide (pr.1 = k))).map (fun pr => pr.2)

/-- JS `Map.set`: replace the entry in place, or append a new one. -/
def alistSet {κ β : Type} [DecidableEq κ] : List (κ × β) → κ → β → List (κ × β)
  | [], k, v => [(k, v)]
  | (k', v') :: rest, k, v =>
      if k' = k then (k, v) :: rest else (k', v') :: alistSet rest k v

/-- JS `Map.delete`: drop the (first) entry with the key. -/
def alistErase {κ β : Type} [DecidableEq κ] : List (κ × β) → κ → List (κ × β)
  | [], _ => []
  | (k', v') :: rest, k =>
      if k' = k then rest else (k', v') :: alistErase rest k

/-- Number of occurrences of `c` in `vals`; embeds the vote tally lookup
`voteCounts.get(c) || 0` (the tally `Map` is built by counting) . -/
def cntV (vals : List Nat) (c : Nat) : Nat :=
  (vals.filter (fun x => decide (x = c))).length

/-- Distinct values in first-occurrence order; embeds the key set of a JS
`Map` built by counting occurrences. -/
def keysIn (l : List Nat) : List Nat :=
  l.foldl (fun acc v => if v ∈ acc then acc else acc ++ [v]) []

/-! ## Data model -/

/-- `this.state` of a `Game`. -/
inductive GState
  | waiting | answering | intermission | voting | results | tiebreaker | finished
  deriving DecidableEq, Repr

structure Prompt where
  id : Nat
  text : String
  deriving DecidableEq, Repr

/-- One element of `this.currentPrompts`: a prompt assigned to a player. -/
structure Assignment where
  playerId : Nat
  promptId : Nat
  text : String
  deriving DecidableEq, Repr

/-- A player record as built by `Game.addPlayer` (primary version: fields
`id, name, socketId, score, isConnected, isBot`).  `id` is a `uuidv4` in
the source; embedded as `Nat`, with freshness an explicit hypothesis. -/
structure Player where
  id : Nat
  name : String
  socketId : Option Nat
  score : Int
  isConnected : Bool
  isBot : Bool
  deriving DecidableEq, Repr

/-- A candidate inside a `pairs`/`thriples` match object (`{id, name, answer}`). -/
structure PairCand where
  id : Nat
  name : String
  answer : String
  deriving DecidableEq, Repr

/-- A candidate inside the single `individual` match
(`{playerId, name, answer, promptText}` - note: no `id` field). -/
structure IndCand where
  playerId : Nat
  name : String
  answer : String
  promptText : String
  deriving DecidableEq, Repr

/-- A voteable match object as pushed into `this.votingMatches`. -/
inductive GMatch
  | pair (promptId : Nat) (promptText : String) (player1 player2 : PairCand)
  | thriple (promptId : Nat) (promptText : String) (answers : List PairCand)
  | individual (answers : List IndCand)
  deriving DecidableEq, Repr

/-- One submitted answer, flattened out of the nested
`answers : Map(playerId -> Map(promptId -> {promptId, answer, ...}))`. -/
structure AnsEntry where
  playerId : Nat
  promptId : Nat
  answer : String
  deriving DecidableEq, Repr

/-- The mutable state of one `Game` instance (the fields the claims are
about; host metadata, settings durations and the prompt-loading cache are
carried where needed). -/
structure Game where
  state : GState
  round : Nat
  maxRounds : Nat
  votingMode : String
  debugMode : Bool
  players : List Player
  prompts : List Prompt
  currentPrompts : List Assignment
  answers : List (Nat × List (Nat × String))
  votes : List (Nat × Nat)
  votingMatches : List GMatch
  currentMatchIndex : Nat
  tiebreakerPlayers : List Nat
  timers : List String
  deriving DecidableEq, Repr

/-- Explicit supply for every `Math.random()` use the claims touch. -/
structure Oracle where
  promptIdx : Nat → Nat
  shuffleAns : List AnsEntry → List AnsEntry
  shuffleMatches : List GMatch → List GMatch
  botVote : GMatch → Nat

/-! ## Game helpers -/

/-- `Game.getPlayer`: first player with the id. -/
def getPlayer (g : Game) (pid : Nat) : Option Player :=
  g.players.find? (fun p => decide (p.id = pid))

/-- `Game.getPlayerByName`: first player with the name. -/
def getPlayerByName (g : Game) (name : String) : Option Player :=
  g.players.find? (fun p => decide (p.name = name))

/-- `this.getPlayer(pid).name`; a missing author would make the JS throw,
the model totalises with the empty string (no claim observes it). -/
def playerNameOf (g : Game) (pid : Nat) : String :=
  ((getPlayer g pid).map (fun p => p.name)).getD ""

/-- `this.prompts.find(p => p.id === promptId)`, then `.text` with the
source's own `''` fallback. -/
def promptTextOf (g : Game) (prid : Nat) : String :=
  ((g.prompts.find? (fun p => decide (p.id = prid))).map (fun p => p.text)).getD ""

/-- `Game.isFinalRound`: `this.round >= this.settings.maxRounds`. -/
def isFinalRound (g : Game) : Bool :=
  decide (g.maxRounds ≤ g.round)

/-- `Game.clearTimer`: cancel and forget the named deadline. -/
def clearTimer (g : Game) (tn : String) : Game :=
  { g with timers := g.timers.erase tn }

/-- `Game.startTimer`: arming under an existing name cancels the prior one.
Durations feed only the wall clock and are not part of the observable state. -/
def startTimer (g : Game) (tn : String) : Game :=
  { g with timers := tn :: g.timers.erase tn }

/-- `player.score += delta` through `getPlayer`: mutate the first player
with the id, no-op when absent. -/
def updateScore : List Player → Nat → Int → List Player
  | [], _, _ => []
  | p :: rest, pid, d =>
      if p.id = pid then { p with score := p.score + d } :: rest
      else p :: updateScore rest pid d

/-- Score of the first player with the id, when present. -/
def scoreOf (ps : List Player) (pid : Nat) : Option Int :=
  ((ps.find? (fun p => decide (p.id = pid))).map (fun p => p.score))

/-- Sum of all scores of a session. -/
def totalScore (ps : List Player) : Int :=
  (ps.map (fun p => p.score)).sum

/-- Whether `(pid, prid)` has a submitted answer. -/
def hasAnswer (g : Game) (pid prid : Nat) : Bool :=
  (alistGet ((alistGet g.answers pid).getD []) prid).isSome

/-- `allAnswersSubmitted`'s count: total entries over all inner maps. -/
def totalAnswers (g : Game) : Nat :=
  (g.answers.map (fun pm => pm.2.length)).sum

/-- `Game.allAnswersSubmitted`: `totalSubmitted >= this.currentPrompts.length`. -/
def allAnswersSubmitted (g : Game) : Bool :=
  decide (g.currentPrompts.length ≤ totalAnswers g)

/-- Modelled from the spec: `allVotesSubmitted` is called by `submitVote`
but not defined in the primary version of the `Game` class; the sibling
versions kept in the repository define it as "every participant has voted"
(during a tiebreaker: every tied participant).  At runtime the primary
version would throw after recording the vote. -/
def allVotesSubmitted (g : Game) : Bool :=
  if g.state = GState.tiebreaker then decide (g.votes.length = g.tiebreakerPlayers.length)
  else decide (g.votes.length = g.players.length)

/-- The vote values (`voteId`s) in insertion order. -/
def voteValues (g : Game) : List Nat :=
  g.votes.map (fun pr => pr.2)

/-- The candidate ids `processMatchResults` extracts from the current
match.  The `individual` branch is reached through
`else if (currentMatch.answers)`, which reads `a.id` - a field the
individual candidates do not have, so those ids are `undefined` (`none`). -/
def candidatesOf : GMatch → List (Option Nat)
  | GMatch.pair _ _ p1 p2 => [some p1.id, some p2.id]
  | GMatch.thriple _ _ ans => ans.map (fun a => some a.id)
  | GMatch.individual ans => ans.map (fun _ => (none : Option Nat))

/-- `voteCounts.get(cid) || 0` for a possibly-undefined candidate id. -/
def candVotes (g : Game) : Option Nat → Nat
  | none => 0
  | some cid => cntV (voteValues g) cid

/-- The per-candidate point award of `processMatchResults`: final rounds
use the percentage-of-pot `floor(v / totalVotes * 1000)` (guarded by
`totalVotes > 0`), standard rounds use `v * 100` plus a `150` bonus for a
match winner with at least one vote. -/
def natAward (isFinal : Bool) (total v maxV : Nat) : Nat :=
  if isFinal then (if 0 < total then v * 1000 / total else 0)
  else v * 100 + (if v = maxV ∧ 0 < maxV then 150 else 0)

/-! ## Match building -/

/-- Flatten `this.answers` in iteration order (outer then inner insertion
order).  The inner value's own `promptId` field always equals its key,
since `submitAnswer` writes both from the same argument. -/
def flatAnswers (g : Game) : List AnsEntry :=
  (g.answers.map (fun pm => pm.2.map (fun a => AnsEntry.mk pm.1 a.1 a.2))).flatten

/-- One step of building `answersByPrompt`: push the entry onto its
prompt's group, appending a new group for a first-seen prompt. -/
def insertGrp : List (Nat × List AnsEntry) → AnsEntry → List (Nat × List AnsEntry)
  | [], e => [(e.promptId, [e])]
  | (k, es) :: rest, e =>
      if k = e.promptId then (k, es ++ [e]) :: rest
      else (k, es) :: insertGrp rest e

/-- `answersByPrompt`: group the flattened answers by `promptId`,
preserving first-encounter order of prompts. -/
def groupByPrompt (ans : List AnsEntry) : List (Nat × List AnsEntry) :=
  ans.foldl insertGrp []

/-- Sequential pairing at positions 0&1, 2&3, ...; an unpaired trailing
element is dropped (`if (i + 1 < answers.length)`). -/
def pairUp {α : Type} : List α → List (α × α)
  | [] => []
  | [_] => []
  | a :: b :: rest => (a, b) :: pairUp rest

/-- Chunks of 3 in order (`answers.slice(i, i + 3)`). -/
def chunk3 {α : Type} : List α → List (List α)
  | [] => []
  | a :: rest => (a :: rest.take 2) :: chunk3 (rest.drop 2)
termination_by l => l.length
decreasing_by
  simp only [List.length_cons, List.length_drop]
  omega

/-- Candidate record built from one grouped answer entry. -/
def candOf (g : Game) (e : AnsEntry) : PairCand :=
  PairCand.mk e.playerId (playerNameOf g e.playerId) e.answer

/-- `Game.createAnswerPairs`: group by prompt, shuffle within each group,
pair sequentially dropping an odd remainder, then shuffle the match list
(`matches.sort(() => Math.random() - 0.5)`). -/
def createAnswerPairs (os : Oracle) (g : Game) : List GMatch :=
  os.shuffleMatches
    (((groupByPrompt (flatAnswers g)).map (fun pr =>
        (pairUp (os.shuffleAns pr.2)).map (fun ab =>
          GMatch.pair pr.1 (promptTextOf g pr.1) (candOf g ab.1) (candOf g ab.2)))).flatten)

/-- `Game.createThriplesVoting`: group by prompt, shuffle, chunk in 3s,
keep chunks of size ≥ 2. -/
def createThriplesVoting (os : Oracle) (g : Game) : List GMatch :=
  os.shuffleMatches
    (((groupByPrompt (flatAnswers g)).map (fun pr =>
        ((chunk3 (os.shuffleAns pr.2)).filter (fun grp => decide (2 ≤ grp.length))).map
          (fun grp =>
            GMatch.thriple pr.1 (promptTextOf g pr.1)
              (grp.map (fun a => candOf g a))))).flatten)

/-- `Game.createFinalRoundVoting` reuses the thriples logic. -/
def createFinalRoundVoting (os : Oracle) (g : Game) : List GMatch :=
  createThriplesVoting os g

/-- `Game.createIndividualVoting`: every answer in iteration order. -/
def createIndividualVoting (g : Game) : List IndCand :=
  (flatAnswers g).map (fun e =>
    IndCand.mk e.playerId (playerNameOf g e.playerId) e.answer (promptTextOf g e.promptId))

/-- `Game.assignPrompts` (primary version, shared policy): draw one random
prompt and assign its identical `(promptId, text)` to every player.  An
out-of-range draw (`undefined` prompt) would make the JS throw before
producing assignments; the model returns `[]` there. -/
def assignPrompts (os : Oracle) (g : Game) : List Assignment :=
  match g.prompts.get? (os.promptIdx g.prompts.length) with
  | none => []
  | some sp => g.players.map (fun p => Assignment.mk p.id sp.id sp.text)

/-! ## Voting-phase state transitions -/

/-- `Game.processMatchResults`: tally the votes, find the current match's
candidates, award points.  The emitted per-match result and the
`setTimeout`-deferred advance to the next match are outside this
synchronous step; an out-of-range match index would throw before any
mutation. -/
def processMatchResults (g : Game) : Game :=
  match g.votingMatches.get? g.currentMatchIndex with
  | none => g
  | some m =>
    let cands := candidatesOf m
    let maxV := (cands.map (candVotes g)).foldl max 0
    let total := g.votes.length
    { g with players :=
        (cands.foldl (fun ps c =>
          match c with
          | none => ps
          | some cid =>
              updateScore ps cid (Int.ofNat (natAward (isFinalRound g) total (candVotes g (some cid)) maxV)))
          g.players) }

/-- `Game.calculateTiebreakerResults`: count the tiebreaker votes, every
vote-id holding the top count wins `500` points.  The returned results
payload is outbound data only. -/
def calculateTiebreakerResults (g : Game) : Game :=
  let vals := voteValues g
  let ks := keysIn vals
  let maxV := (ks.map (cntV vals)).foldl max 0
  let winners := ks.filter (fun k => decide (cntV vals k = maxV))
  { g with players := winners.foldl (fun ps w => updateScore ps w 500) g.players }

/-- `Game.completeTiebreaker`: apply the tiebreaker results; the emission
and the 5s-deferred round advance are outside this step. -/
def completeTiebreaker (g : Game) : Game :=
  calculateTiebreakerResults g

/-- `Game.submitVote`: a non-tied voter is ignored during a tiebreaker;
otherwise the vote is recorded unconditionally (no candidate validation),
and a full tally completes the tiebreaker or processes the match. -/
def submitVote (g : Game) (pid vid : Nat) : Game :=
  if g.state = GState.tiebreaker ∧ pid ∉ g.tiebreakerPlayers then g
  else
    let g1 := { g with votes := alistSet g.votes pid vid }
    if allVotesSubmitted g1 then
      if g1.state = GState.tiebreaker then completeTiebreaker (clearTimer g1 "tiebreaker")
      else processMatchResults (clearTimer g1 "vote")
    else g1

/-- `Game.simulateBotVotesForMatch`: debug mode only; each bot submits an
oracle-chosen vote for the match. -/
def simulateBotVotesForMatch (os : Oracle) (g : Game) (m : GMatch) : Game :=
  if g.debugMode then
    g.players.foldl (fun acc p => if p.isBot then submitVote acc p.id (os.botVote m) else acc) g
  else g

/-- `Game.completeVotingPhase` only emits cumulative results and defers
`startNextRound` by 5s; the synchronous step leaves the state unchanged. -/
def completeVotingPhase (g : Game) : Game :=
  g

/-- `Game.startNextVotingMatch`: past the last match, complete the phase;
otherwise clear the tally, enter `voting`, arm the vote deadline and let
debug bots vote. -/
def startNextVotingMatch (os : Oracle) (g : Game) : Game :=
  if g.votingMatches.length ≤ g.currentMatchIndex then completeVotingPhase g
  else
    match g.votingMatches.get? g.currentMatchIndex with
    | none => g
    | some m =>
      let g1 := { g with votes := ([] : List (Nat × Nat)), state := GState.voting }
      simulateBotVotesForMatch os (startTimer g1 "vote") m

/-- `Game.startVotingPhase`: clear the tally, build the match list for the
round's grouping (final rounds always reuse the thriples builder), reset
the match index and start the first match. -/
def startVotingPhase (os : Oracle) (g : Game) : Game :=
  let g1 := { g with votes := ([] : List (Nat × Nat)) }
  let ms :=
    if isFinalRound g1 then createFinalRoundVoting os g1
    else if g1.votingMode = "pairs" then createAnswerPairs os g1
    else if g1.votingMode = "thriples" then createThriplesVoting os g1
    else [GMatch.individual (createIndividualVoting g1)]
  startNextVotingMatch os { g1 with votingMatches := ms, currentMatchIndex := 0 }

/-- `Game.submitAnswer`: record the answer into the nested map with no
prompt validation, then transition to voting when the total count reaches
the assignment count. -/
def submitAnswer (os : Oracle) (g : Game) (pid prid : Nat) (a : String) : Game :=
  let inner := (alistGet g.answers pid).getD []
  let g1 := { g with answers := alistSet g.answers pid (alistSet inner prid a) }
  if allAnswersSubmitted g1 then startVotingPhase os (clearTimer g1 "answer")
  else g1

/-- `Game.startAnsweringPhase`: enter `answering`, build the round's
assignments, clear the answers, arm the answer deadline.  The bot answers
(`simulateBotAnswers`) resolve asynchronously and are not part of this
step. -/
def startAnsweringPhase (os : Oracle) (g : Game) : Game :=
  let g1 := { g with state := GState.answering }
  let g2 := { g1 with currentPrompts := assignPrompts os g1 }
  startTimer { g2 with answers := ([] : List (Nat × List (Nat × String))) } "answer"

/-- The inner loop of the answer-deadline auto-fill: over the player's
assigned prompts, submit the sentinel answer for each prompt the captured
answer map `pans` does not cover. -/
def fillPlayerPrompts (os : Oracle) (pid : Nat) (pans : List (Nat × String))
    (prs : List Assignment) (acc : Game) : Game :=
  prs.foldl (fun acc2 pr =>
    if (alistGet pans pr.promptId).isSome then acc2
    else submitAnswer os acc2 pid pr.promptId "(No answer submitted)") acc

/-- One player's auto-fill step: the source captures
`const playerAnswers = this.answers.get(player.id) || new Map()` once at
player entry, then iterates that player's assignments. -/
def fillPlayer (os : Oracle) (acc : Game) (p : Player) : Game :=
  fillPlayerPrompts os p.id ((alistGet acc.answers p.id).getD [])
    (acc.currentPrompts.filter (fun pr => decide (pr.playerId = p.id))) acc

/-- The answer-deadline auto-fill of `handleTimerEnd`: for every player,
every assigned prompt still missing an answer is submitted with the
sentinel text. -/
def fillMissingAnswers (os : Oracle) (g : Game) : Game :=
  g.players.foldl (fillPlayer os) g

/-- `Game.handleTimerEnd`: each deadline acts only when its phase is still
current; a stale fire just forgets the timer. -/
def handleTimerEnd (os : Oracle) (g : Game) (tn : String) : Game :=
  let g1 := clearTimer g tn
  if tn = "intermission" ∧ g1.state = GState.intermission then startAnsweringPhase os g1
  else if tn = "answer" ∧ g1.state = GState.answering then fillMissingAnswers os g1
  else if tn = "vote" ∧ g1.state = GState.voting then processMatchResults g1
  else if tn = "tiebreaker" ∧ g1.state = GState.tiebreaker then completeTiebreaker g1
  else g1

/-! ## GameManager and the join handler -/

/-- `Game.addPlayer`: a fresh player with score 0, appended.  The fresh
`uuidv4` id is supplied explicitly. -/
def gameAddPlayer (g : Game) (newId : Nat) (name : String) (sid : Option Nat) (isBot : Bool) :
    Player × Game :=
  let p : Player := Player.mk newId name sid 0 true isBot
  (p, { g with players := g.players ++ [p] })

/-- The reconnection rebind: mutate the first player with the name to the
new socket and `isConnected = true` (the object `getPlayerByName` found). -/
def rebindFirst : List Player → String → Nat → List Player
  | [], _, _ => []
  | p :: rest, name, sid =>
      if p.name = name then { p with socketId := some sid, isConnected := true } :: rest
      else p :: rebindFirst rest name sid

/-- The session registry: room code → game, socket → (room, playerId). -/
structure Mgr where
  games : List (String × Game)
  socketMap : List (Nat × (String × Nat))
  deriving Repr

/-- `GameManager.addPlayer`: a name matching an existing *disconnected*
player rebinds that slot, otherwise a fresh player is allocated; either
way the reverse socket mapping is recorded. -/
def mgrAddPlayer (m : Mgr) (room : String) (name : String) (sid : Nat) (newId : Nat) :
    Option Player × Mgr :=
  match alistGet m.games room with
  | none => (none, m)
  | some g =>
    let pg : Player × Game :=
      match getPlayerByName g name with
      | some ex =>
          if ex.isConnected then gameAddPlayer g newId name (some sid) false
          else ({ ex with socketId := some sid, isConnected := true },
                { g with players := rebindFirst g.players name sid })
      | none => gameAddPlayer g newId name (some sid) false
    (some pg.1,
     { games := alistSet m.games room pg.2,
       socketMap := alistSet m.socketMap sid (room, pg.1.id) })

/-- Set `isConnected = false` on the first player with the id. -/
def disconnectFirst : List Player → Nat → List Player
  | [], _ => []
  | p :: rest, pid =>
      if p.id = pid then { p with isConnected := false } :: rest
      else p :: disconnectFirst rest pid

/-- `GameManager.handleDisconnect`: flip the player's connected flag via
the socket mapping, never removing the player or the game, then drop the
reverse mapping. -/
def mgrHandleDisconnect (m : Mgr) (sid : Nat) : Mgr :=
  match alistGet m.socketMap sid with
  | none => m
  | some rp =>
    let games' :=
      match alistGet m.games rp.1 with
      | none => m.games
      | some g => alistSet m.games rp.1 { g with players := disconnectFirst g.players rp.2 }
    { games := games', socketMap := alistErase m.socketMap sid }

/-- Outcome of the `join-game` socket handler. -/
inductive JoinOutcome
  | notFound
  | full
  | joined (p : Player)
  deriving Repr

/-- The `join-game` handler of `server/index.js`: unknown room and the
8-player capacity check (over the full players array, disconnected players
and bots included) are rejected before `GameManager.addPlayer` runs. -/
def joinGameHandler (m : Mgr) (room : String) (name : String) (sid : Nat) (newId : Nat) :
    JoinOutcome × Mgr :=
  match alistGet m.games room with
  | none => (JoinOutcome.notFound, m)
  | some g =>
    if 8 ≤ g.players.length then (JoinOutcome.full, m)
    else
      match mgrAddPlayer m room name sid newId with
      | (some p, m') => (JoinOutcome.joined p, m')
      | (none, m') => (JoinOutcome.notFound, m')

/-! ## Concrete states used by witnesses and counterexamples -/

/-- A deterministic admissible randomness supply: first prompt, identity
shuffles (one reachable outcome of Fisher-Yates / `sort`). -/
def idOracle : Oracle :=
  Oracle.mk (fun _ => 0) (fun l => l) (fun l => l) (fun _ => 0)

/-- An empty waiting room with default settings. -/
def baseGame : Game :=
  Game.mk GState.waiting 0 3 "individual" false [] [] [] [] [] [] 0 [] []

/-- A connected human player with score 0. -/
def mkP (i : Nat) (nm : String) : Player :=
  Player.mk i nm (some i) 0 true false

/-- Game used by the C1 witness: phase already advanced to voting. -/
def gC1w : Game :=
  { baseGame with
      state := GState.voting,
      players := [mkP 1 "A", mkP 2 "B"],
      answers := [(1, [(1, "x")]), (2, [(1, "y")])],
      votingMatches := [GMatch.pair 1 "t" (PairCand.mk 1 "A" "x") (PairCand.mk 2 "B" "y")],
      timers := ["vote"] }

/-- Round-1 voting state: candidates 1 and 2, voters 3 and 4 both voted
for candidate 1 (a unanimous match win). -/
def gC2 : Game :=
  { baseGame with
      state := GState.voting,
      round := 1,
      maxRounds := 3,
      players := [mkP 1 "A", mkP 2 "B", mkP 3 "C", mkP 4 "D"],
      votingMatches := [GMatch.pair 1 "t" (PairCand.mk 1 "A" "a") (PairCand.mk 2 "B" "b")],
      currentMatchIndex := 0,
      votes := [(3, 1), (4, 1)] }

/-- Final-round voting state with one thriple match, used by the C3 witness. -/
def gC3w : Game :=
  { baseGame with
      state := GState.voting,
      round := 3,
      maxRounds := 3,
      players := [mkP 1 "A", mkP 2 "B", mkP 3 "C"],
      votingMatches :=
        [GMatch.thriple 1 "t"
          [PairCand.mk 1 "A" "a", PairCand.mk 2 "B" "b", PairCand.mk 3 "C" "c"]],
      currentMatchIndex := 0,
      votes := [(1, 2), (2, 3), (3, 2)] }

/-- An answering-phase room, used by the C7 counterexample: prompt 99 is
assigned to nobody. -/
def gC7a : Game :=
  { baseGame with
      state := GState.answering,
      round := 1,
      players := [mkP 1 "A", mkP 2 "B", mkP 3 "C"],
      prompts := [Prompt.mk 1 "t"],
      currentPrompts := [Assignment.mk 1 1 "t", Assignment.mk 2 1 "t", Assignment.mk 3 1 "t"],
      timers := ["answer"] }

/-- A voting-phase room whose current match has candidates 1 and 2 only. -/
def gC7v : Game :=
  { baseGame with
      state := GState.voting,
      round := 1,
      players := [mkP 1 "A", mkP 2 "B", mkP 3 "C"],
      votingMatches := [GMatch.pair 1 "t" (PairCand.mk 1 "A" "a") (PairCand.mk 2 "B" "b")],
      currentMatchIndex := 0 }

/-- Three players and a one-prompt pool, used by the C8 witness. -/
def g3P : Game :=
  { baseGame with
      players := [mkP 1 "A", mkP 2 "B", mkP 3 "C"],
      prompts := [Prompt.mk 7 "Worst pet name: ______"] }

/-- A full room (8 participants counting a disconnected player and a bot). -/
def gFull : Game :=
  { baseGame with
      players :=
        [Player.mk 1 "Alice" none 0 false false, mkP 2 "B", mkP 3 "C", mkP 4 "D",
         mkP 5 "E", mkP 6 "F", mkP 7 "G", Player.mk 8 "Bot 1" none 0 true true] }

/-- Registry holding the full room, used by the C10 witness. -/
def mFull : Mgr := Mgr.mk [("ROOM", gFull)] []

/-- C4 counterexample trace, step 0: an empty room. -/
def mgrC4a : Mgr := Mgr.mk [("R", baseGame)] []

/-- Step 1: a first player joins as "X" (allocated id 1, socket 11). -/
def mgrC4b : Mgr := (mgrAddPlayer mgrC4a "R" "X" 11 1).2

/-- Step 2: a second join as "X" while the first is connected allocates a
fresh participant (id 2, socket 12). -/
def mgrC4c : Mgr := (mgrAddPlayer mgrC4b "R" "X" 12 2).2

/-- Step 3: the second "X" (socket 12) disconnects; the record is retained
with `isConnected = false`. -/
def mgrC4d : Mgr := mgrHandleDisconnect mgrC4c 12

/-- C4 witness trace: "Alice" joins an empty room (id 1, socket 21). -/
def mgrW4a : Mgr := (mgrAddPlayer (Mgr.mk [("R", baseGame)] []) "R" "Alice" 21 1).2

/-- Then "Alice" disconnects. -/
def mgrW4b : Mgr := mgrHandleDisconnect mgrW4a 21

/-- C5 counterexample: four players share prompt 1; players 1-3 have
answered it, player 4 has not; the pool also holds an unassigned prompt 2. -/
def gC5 : Game :=
  { baseGame with
      state := GState.answering,
      round := 1,
      maxRounds := 3,
      votingMode := "pairs",
      players := [mkP 1 "A", mkP 2 "B", mkP 3 "C", mkP 4 "D"],
      prompts := [Prompt.mk 1 "t", Prompt.mk 2 "u"],
      currentPrompts :=
        [Assignment.mk 1 1 "t", Assignment.mk 2 1 "t", Assignment.mk 3 1 "t",
         Assignment.mk 4 1 "t"],
      answers := [(1, [(1, "a1")]), (2, [(1, "a2")]), (3, [(1, "a3")])],
      timers := ["answer"] }

/-- Four players all answered the one shared prompt; paired grouping. -/
def gC6 : Game :=
  { baseGame with
      state := GState.answering,
      round := 1,
      votingMode := "pairs",
      players := [mkP 1 "A", mkP 2 "B", mkP 3 "C", mkP 4 "D"],
      prompts := [Prompt.mk 1 "t"],
      currentPrompts :=
        [Assignment.mk 1 1 "t", Assignment.mk 2 1 "t", Assignment.mk 3 1 "t",
         Assignment.mk 4 1 "t"],
      answers := [(1, [(1, "a1")]), (2, [(1, "a2")]), (3, [(1, "a3")]), (4, [(1, "a4")])] }

/-- Pointwise "no score decreased" relation between two player lists. -/
def scoresLe (ps qs : List Player) : Prop :=
  List.Forall₂ (fun p q => p.score ≤ q.score) ps qs

/-- Every score of the session is non-negative. -/
def nonnegScores (ps : List Player) : Prop :=
  ∀ p ∈ ps, 0 ≤ p.score

/-- Vote count of a possibly-undefined candidate id against a value list. -/
def optCnt (vals : List Nat) : Option Nat → Nat
  | none => 0
  | some cid => cntV vals cid

/-- The `(playerId, promptId, answer)` content a match presents, used to
relate built matches back to the submitted answers (the `individual` case
never occurs among pair-builder output). -/
def matchEntries : GMatch → List AnsEntry
  | GMatch.pair prid _ c1 c2 =>
      [AnsEntry.mk c1.id prid c1.answer, AnsEntry.mk c2.id prid c2.answer]
  | GMatch.thriple prid _ ans => ans.map (fun c => AnsEntry.mk c.id prid c.answer)
  | GMatch.individual _ => []

/-- All answer content across a match list. -/
def allEntries (ms : List GMatch) : List AnsEntry :=
  (ms.map matchEntries).flatten

/-- Flatten a grouped answer structure back to its entries. -/
def groupsFlat (gs : List (Nat × List AnsEntry)) : List AnsEntry :=
  (gs.map (fun pr => pr.2)).flatten

/-- Every entry of a group carries the group's prompt id. -/
def grpWF (gs : List (Nat × List AnsEntry)) : Prop :=
  ∀ pr ∈ gs, ∀ e ∈ pr.2, e.promptId = pr.1

/-- The room state after the C4 witness trace ("Alice" joined then
disconnected): one retained, disconnected participant. -/
def gW4 : Game :=
  { baseGame with players := [Player.mk 1 "Alice" (some 21) 0 false false] }

/-- The per-group match construction of `createAnswerPairs`, named for the
lemmas below; `createAnswerPairs` is definitionally the shuffle of the
flattened `buildPairMatches` over the prompt groups. -/
def buildPairMatches (os : Oracle) (g : Game) (pr : Nat × List AnsEntry) : List GMatch :=
  (pairUp (os.shuffleAns pr.2)).map (fun ab =>
    GMatch.pair pr.1 (promptTextOf g pr.1) (candOf g ab.1) (candOf g ab.2))

/-! ## Association-list and tally lemmas -/

theorem alistGet_cons {κ β : Type} [DecidableEq κ] (k' : κ) (v' : β)
    (rest : List (κ × β)) (k : κ) :
    alistGet ((k', v') :: rest) k = if k' = k then some v' else alistGet rest k := by
  by_cases h : k' = k
  · simp [alistGet, List.find?, h]
  · simp [alistGet, List.find?, h]

theorem alistGet_set {κ β : Type} [DecidableEq κ] (m : List (κ × β)) (k : κ) (v : β) (k' : κ) :
    alistGet (alistSet m k v) k' = if k = k' then some v else alistGet m k' := by
  induction m with
  | nil =>
      by_cases h : k = k' <;> simp [alistSet, alistGet_cons, alistGet, h]
  | cons kv rest ih =>
      obtain ⟨k0, v0⟩ := kv
      by_cases h0 : k0 = k
      · subst h0
        by_cases h : k0 = k' <;> simp [alistSet, alistGet_cons, h]
      · simp only [alistSet, if_neg h0, alistGet_cons]
        by_cases h1 : k0 = k'
        · subst h1
          have : ¬ k = k0 := fun hh => h0 hh.symm
          simp [this]
        · simp [h1, ih]

theorem alistGet_set_self {κ β : Type} [DecidableEq κ] (m : List (κ × β)) (k : κ) (v : β) :
    alistGet (alistSet m k v) k = some v := by
  simp [alistGet_set]

/-! ## Field-preservation lemmas for the embedded operations -/

theorem clearTimer_answers (g : Game) (tn : String) : (clearTimer g tn).answers = g.answers := rfl

theorem clearTimer_state (g : Game) (tn : String) : (clearTimer g tn).state = g.state := rfl

theorem processMatchResults_answers (g : Game) :
    (processMatchResults g).answers = g.answers := by
  unfold processMatchResults; split <;> rfl

theorem processMatchResults_currentPrompts (g : Game) :
    (processMatchResults g).currentPrompts = g.currentPrompts := by
  unfold processMatchResults; split <;> rfl

theorem processMatchResults_votes (g : Game) :
    (processMatchResults g).votes = g.votes := by
  unfold processMatchResults; split <;> rfl

theorem calculateTiebreakerResults_answers (g : Game) :
    (calculateTiebreakerResults g).answers = g.answers := rfl

theorem calculateTiebreakerResults_currentPrompts (g : Game) :
    (calculateTiebreakerResults g).currentPrompts = g.currentPrompts := rfl

theorem calculateTiebreakerResults_votes (g : Game) :
    (calculateTiebreakerResults g).votes = g.votes := rfl

theorem submitVote_answers (g : Game) (pid vid : Nat) :
    (submitVote g pid vid).answers = g.answers := by
  unfold submitVote
  split
  · rfl
  · dsimp only
    split
    · split
      · rfl
      · exact processMatchResults_answers _
    · rfl

theorem submitVote_currentPrompts (g : Game) (pid vid : Nat) :
    (submitVote g pid vid).currentPrompts = g.currentPrompts := by
  unfold submitVote
  split
  · rfl
  · dsimp only
    split
    · split
      · rfl
      · exact processMatchResults_currentPrompts _
    · rfl

theorem foldl_proj {α β : Type} (proj : Game → β) (step : Game → α → Game)
    (h : ∀ acc x, proj (step acc x) = proj acc) :
    ∀ (l : List α) (g : Game), proj (l.foldl step g) = proj g := by
  intro l
  induction l with
  | nil => intro g; rfl
  | cons x rest ih => intro g; rw [List.foldl_cons, ih, h]

theorem simulateBotVotesForMatch_answers (os : Oracle) (g : Game) (m : GMatch) :
    (simulateBotVotesForMatch os g m).answers = g.answers := by
  unfold simulateBotVotesForMatch
  split
  · exact foldl_proj (fun g => g.answers) _
      (by intro acc p; split; exacts [submitVote_answers _ _ _, rfl]) _ _
  · rfl

theorem simulateBotVotesForMatch_currentPrompts (os : Oracle) (g : Game) (m : GMatch) :
    (simulateBotVotesForMatch os g m).currentPrompts = g.currentPrompts := by
  unfold simulateBotVotesForMatch
  split
  · exact foldl_proj (fun g => g.currentPrompts) _
      (by intro acc p; split; exacts [submitVote_currentPrompts _ _ _, rfl]) _ _
  · rfl

theorem startNextVotingMatch_answers (os : Oracle) (g : Game) :
    (startNextVotingMatch os g).answers = g.answers := by
  unfold startNextVotingMatch
  split
  · rfl
  · split
    · rfl
    · exact simulateBotVotesForMatch_answers _ _ _

theorem startNextVotingMatch_currentPrompts (os : Oracle) (g : Game) :
    (startNextVotingMatch os g).currentPrompts = g.currentPrompts := by
  unfold startNextVotingMatch
  split
  · rfl
  · split
    · rfl
    · exact simulateBotVotesForMatch_currentPrompts _ _ _

theorem startVotingPhase_answers (os : Oracle) (g : Game) :
    (startVotingPhase os g).answers = g.answers := by
  unfold startVotingPhase
  exact startNextVotingMatch_answers _ _

theorem startVotingPhase_currentPrompts (os : Oracle) (g : Game) :
    (startVotingPhase os g).currentPrompts = g.currentPrompts := by
  unfold startVotingPhase
  exact startNextVotingMatch_currentPrompts _ _

theorem submitAnswer_currentPrompts (os : Oracle) (g : Game) (pid prid : Nat) (a : String) :
    (submitAnswer os g pid prid a).currentPrompts = g.currentPrompts := by
  unfold submitAnswer
  dsimp only
  split
  · exact startVotingPhase_currentPrompts _ _
  · rfl

theorem submitAnswer_answers (os : Oracle) (g : Game) (pid prid : Nat) (a : String) :
    (submitAnswer os g pid prid a).answers =
      alistSet g.answers pid (alistSet ((alistGet g.answers pid).getD []) prid a) := by
  unfold submitAnswer
  dsimp only
  split
  · exact startVotingPhase_answers _ _
  · rfl

/-! ## Score and tally lemmas -/

theorem scoreOf_cons (q : Player) (rest : List Player) (pid : Nat) :
    scoreOf (q :: rest) pid = if q.id = pid then some q.score else scoreOf rest pid := by
  by_cases h : q.id = pid <;> simp [scoreOf, List.find?, h]

theorem scoreOf_updateScore_hit :
    ∀ (ps : List Player) (pid : Nat) (d : Int) (p : Player),
      ps.find? (fun q => decide (q.id = pid)) = some p →
      scoreOf (updateScore ps pid d) pid = some (p.score + d) := by
  intro ps
  induction ps with
  | nil => intro pid d p h; simp [List.find?] at h
  | cons q rest ih =>
      intro pid d p h
      by_cases hq : q.id = pid
      · have hp : q = p := by simpa [List.find?, hq] using h
        subst hp
        simp [updateScore, hq, scoreOf_cons]
      · have h' : rest.find? (fun q => decide (q.id = pid)) = some p := by
          simpa [List.find?, hq] using h
        simp [updateScore, hq, scoreOf_cons, ih _ _ _ h']

theorem scoreOf_updateScore_ne (pid pid' : Nat) (hne : pid' ≠ pid) :
    ∀ (ps : List Player) (d : Int),
      scoreOf (updateScore ps pid d) pid' = scoreOf ps pid' := by
  intro ps
  induction ps with
  | nil => intro d; rfl
  | cons q rest ih =>
      intro d
      have hpp : ¬ pid = pid' := fun hh => hne hh.symm
      by_cases hq : q.id = pid
      · have hq' : ¬ q.id = pid' := by rw [hq]; exact fun hh => hne hh.symm
        simp [updateScore, hq, scoreOf_cons, hq', hpp]
      · by_cases hq' : q.id = pid'
        · simp [updateScore, hq, scoreOf_cons, hq', hne]
        · simp [updateScore, hq, scoreOf_cons, hq', ih]

theorem cntV_all (c : Nat) :
    ∀ vals : List Nat, (∀ v ∈ vals, v = c) → cntV vals c = vals.length := by
  intro vals
  induction vals with
  | nil => intro _; rfl
  | cons v rest ih =>
      intro h
      have hv : v = c := h v (List.mem_cons_self _ _)
      have hr := ih (fun x hx => h x (List.mem_cons_of_mem _ hx))
      have hstep : cntV (v :: rest) c = cntV rest c + 1 := by
        simp [cntV, List.filter_cons, hv]
      rw [hstep, hr, List.length_cons]

theorem cntV_none (c c' : Nat) (hne : c' ≠ c) :
    ∀ vals : List Nat, (∀ v ∈ vals, v = c) → cntV vals c' = 0 := by
  intro vals
  induction vals with
  | nil => intro _; rfl
  | cons v rest ih =>
      intro h
      have hv : v = c := h v (List.mem_cons_self _ _)
      have hr := ih (fun x hx => h x (List.mem_cons_of_mem _ hx))
      have hvne : ¬ (v = c') := by rw [hv]; exact fun hh => hne hh.symm
      have hstep : cntV (v :: rest) c' = cntV rest c' := by
        simp [cntV, List.filter_cons, hvne]
      rw [hstep, hr]

theorem submitVote_votes (g : Game) (pid vid : Nat)
    (h : ¬(g.state = GState.tiebreaker ∧ pid ∉ g.tiebreakerPlayers)) :
    (submitVote g pid vid).votes = alistSet g.votes pid vid := by
  unfold submitVote
  rw [if_neg h]
  dsimp only
  split
  · split
    · rfl
    · rw [processMatchResults_votes]
      rfl
  · rfl

/-! ## Claim theorems -/

/-- C1: firing the answer deadline after the phase has already advanced
past `answering` is a no-op on the game data: `handleTimerEnd` mutates no
answers, builds no match list and changes no participant score; the stale
fire only forgets the timer. -/
theorem claim1_stale_answer_deadline_noop (os : Oracle) (g : Game)
    (h : g.state ≠ GState.answering) :
    (handleTimerEnd os g "answer").answers = g.answers ∧
    (handleTimerEnd os g "answer").votingMatches = g.votingMatches ∧
    (handleTimerEnd os g "answer").players = g.players := by
  have e : handleTimerEnd os g "answer" = clearTimer g "answer" := by
    unfold handleTimerEnd
    dsimp only
    have h1 : ¬(("answer" : String) = "intermission" ∧
        (clearTimer g "answer").state = GState.intermission) :=
      fun hc => absurd hc.1 (by decide)
    have h2 : ¬(("answer" : String) = "answer" ∧
        (clearTimer g "answer").state = GState.answering) :=
      fun hc => h hc.2
    have h3 : ¬(("answer" : String) = "vote" ∧
        (clearTimer g "answer").state = GState.voting) :=
      fun hc => absurd hc.1 (by decide)
    have h4 : ¬(("answer" : String) = "tiebreaker" ∧
        (clearTimer g "answer").state = GState.tiebreaker) :=
      fun hc => absurd hc.1 (by decide)
    rw [if_neg h1, if_neg h2, if_neg h3, if_neg h4]
  rw [e]
  exact ⟨rfl, rfl, rfl⟩

/-- C1 witness: a concrete session already in the voting phase; the stale
answer-deadline fire leaves answers, match list and players untouched. -/
theorem claim1_witness :
    gC1w.state ≠ GState.answering ∧
    ((handleTimerEnd idOracle gC1w "answer").answers = gC1w.answers ∧
     (handleTimerEnd idOracle gC1w "answer").votingMatches = gC1w.votingMatches ∧
     (handleTimerEnd idOracle gC1w "answer").players = gC1w.players) :=
  ⟨by decide, claim1_stale_answer_deadline_noop idOracle gC1w (by decide)⟩

/-- C10: the `join-game` handler applies the 8-participant capacity check
(over the full players array, disconnected participants and bots included)
before `GameManager.addPlayer` can rebind a disconnected participant, so a
join into a full room - any join, reconnection included - is rejected with
the full-room error and the registry is unchanged. -/
theorem claim10_full_room_blocks_reconnect (m : Mgr) (room name : String)
    (sid newId : Nat) (g : Game)
    (hg : alistGet m.games room = some g) (h8 : 8 ≤ g.players.length) :
    joinGameHandler m room name sid newId = (JoinOutcome.full, m) := by
  unfold joinGameHandler
  rw [hg]
  dsimp only
  rw [if_pos h8]

/-- C10 witness: a full room containing a disconnected "Alice"; Alice's
reconnection attempt is rejected and the registry is unchanged. -/
theorem claim10_witness :
    alistGet mFull.games "ROOM" = some gFull ∧
    8 ≤ gFull.players.length ∧
    (∃ p ∈ gFull.players, p.name = "Alice" ∧ p.isConnected = false) ∧
    joinGameHandler mFull "ROOM" "Alice" 99 100 = (JoinOutcome.full, mFull) :=
  ⟨rfl, by decide, by decide,
   claim10_full_room_blocks_reconnect mFull "ROOM" "Alice" 99 100 gFull rfl (by decide)⟩

/-- C8: under the shared assignment policy one prompt is drawn from the
pool and every participant receives exactly one assignment carrying that
prompt's identical `(promptId, text)` (the assignment list mirrors the
player list one-to-one). -/
theorem claim8_shared_assignment (os : Oracle) (g : Game)
    (h : os.promptIdx g.prompts.length < g.prompts.length) :
    ∃ sp ∈ g.prompts,
      (assignPrompts os g).map (fun a => a.playerId) = g.players.map (fun p => p.id) ∧
      ∀ a ∈ assignPrompts os g, a.promptId = sp.id ∧ a.text = sp.text := by
  have hg : g.prompts.get? (os.promptIdx g.prompts.length) =
      some (g.prompts.get ⟨os.promptIdx g.prompts.length, h⟩) := List.get?_eq_get h
  refine ⟨g.prompts.get ⟨os.promptIdx g.prompts.length, h⟩, List.get_mem _ _ _, ?_, ?_⟩
  · unfold assignPrompts
    rw [hg]
    simp [List.map_map]
  · intro a ha
    unfold assignPrompts at ha
    rw [hg] at ha
    simp only [List.mem_map] at ha
    obtain ⟨p, _, rfl⟩ := ha
    exact ⟨rfl, rfl⟩

/-- C8 witness: a three-player room; all three assignments carry the
drawn prompt's identical id and text, one per participant. -/
theorem claim8_witness :
    idOracle.promptIdx g3P.prompts.length < g3P.prompts.length ∧
    ∃ sp ∈ g3P.prompts,
      (assignPrompts idOracle g3P).map (fun a => a.playerId) =
        g3P.players.map (fun p => p.id) ∧
      ∀ a ∈ assignPrompts idOracle g3P, a.promptId = sp.id ∧ a.text = sp.text :=
  ⟨by decide, claim8_shared_assignment idOracle g3P (by decide)⟩

/-- C2 counterexample: in round 1 (`gC2.round = 1`, not the final round),
candidate 1 receives 100% of the match's votes (2 of 2, at least one cast),
yet `processMatchResults` awards 350 points - `2 * 100` vote points plus
the `150` match-win bonus - not the claimed 1500. -/
theorem claim2_counterexample :
    gC2.round = 1 ∧
    (voteValues gC2).length = 2 ∧
    cntV (voteValues gC2) 1 = 2 ∧
    scoreOf gC2.players 1 = some 0 ∧
    scoreOf (processMatchResults gC2).players 1 = some 350 ∧
    ((350 : Int) ≠ 1500) := by
  refine ⟨rfl, rfl, by decide, by decide, by decide, by decide⟩

/-- C2 amended: in a non-final round, a pair-match candidate who received
100% of the k ≥ 1 votes cast for the match is awarded `k * 100 + 150`
points (100 per vote plus the 150 match-win bonus); the percentage-of-pot
formula runs only in the final round and the code has no 1000/500
base/sweep values. -/
theorem claim2_amended (g : Game) (prid : Nat) (t : String) (c1 c2 : PairCand) (p : Player)
    (hfin : isFinalRound g = false)
    (hm : g.votingMatches.get? g.currentMatchIndex = some (GMatch.pair prid t c1 c2))
    (hne : c1.id ≠ c2.id)
    (hall : ∀ v ∈ voteValues g, v = c1.id)
    (hk : 0 < g.votes.length)
    (hp : g.players.find? (fun q => decide (q.id = c1.id)) = some p) :
    scoreOf (processMatchResults g).players c1.id =
      some (p.score + Int.ofNat (g.votes.length * 100 + 150)) := by
  have hlen : (voteValues g).length = g.votes.length := by simp [voteValues]
  have h1 : candVotes g (some c1.id) = g.votes.length := by
    rw [show candVotes g (some c1.id) = cntV (voteValues g) c1.id from rfl,
      cntV_all c1.id (voteValues g) hall, hlen]
  have h2 : candVotes g (some c2.id) = 0 :=
    cntV_none c1.id c2.id (Ne.symm hne) (voteValues g) hall
  have hk0 : ¬ ((0 : Nat) = g.votes.length) := by omega
  unfold processMatchResults
  rw [hm]
  dsimp only [candidatesOf]
  simp only [List.map_cons, List.map_nil, List.foldl_cons, List.foldl_nil, h1, h2]
  have hmax : max (max 0 g.votes.length) 0 = g.votes.length := by omega
  rw [hmax]
  have ha1 : natAward (isFinalRound g) g.votes.length g.votes.length g.votes.length =
      g.votes.length * 100 + 150 := by
    rw [hfin]
    simp [natAward, hk]
  have ha2 : natAward (isFinalRound g) g.votes.length 0 g.votes.length = 0 := by
    rw [hfin]
    simp [natAward, hk0]
  rw [ha1, ha2]
  show scoreOf (updateScore (updateScore g.players c1.id _) c2.id (Int.ofNat 0)) c1.id = _
  rw [scoreOf_updateScore_ne c2.id c1.id hne]
  exact scoreOf_updateScore_hit g.players c1.id _ p hp

/-- C2 amended witness: the concrete round-1 sweep awards `2*100 + 150`. -/
theorem claim2_witness :
    isFinalRound gC2 = false ∧
    scoreOf (processMatchResults gC2).players 1 =
      some ((0 : Int) + Int.ofNat (gC2.votes.length * 100 + 150)) :=
  ⟨rfl,
   claim2_amended gC2 1 "t" (PairCand.mk 1 "A" "a") (PairCand.mk 2 "B" "b") (mkP 1 "A")
     rfl rfl (by decide) (by decide) (by decide) rfl⟩

/-- C7 counterexample: `submitAnswer` with a promptId assigned to nobody
still inserts the answer into the answers map, and `submitVote` with a
candidateId not in the current match still records the vote in the tally -
neither reference is validated, contradicting the never-mutates claim. -/
theorem claim7_counterexample :
    (∀ pr ∈ gC7a.currentPrompts, pr.promptId ≠ 99) ∧
    (submitAnswer idOracle gC7a 1 99 "zz").answers ≠ gC7a.answers ∧
    (∀ m ∈ gC7v.votingMatches, ∀ c ∈ candidatesOf m, c ≠ some 77) ∧
    (submitVote gC7v 3 77).votes ≠ gC7v.votes := by
  refine ⟨by decide, by decide, by decide, by decide⟩

/-- C7 amended: answer and vote submission perform no prompt/candidate
existence validation - `submitAnswer` records any `(participant, prompt)`
answer and `submitVote` records any candidateId in the tally; the only
guard is that a tiebreaker vote from a non-tied participant is ignored
without any mutation. -/
theorem claim7_amended :
    (∀ (os : Oracle) (g : Game) (pid prid : Nat) (a : String),
        hasAnswer (submitAnswer os g pid prid a) pid prid = true)
    ∧ (∀ (g : Game) (pid vid : Nat),
        ¬(g.state = GState.tiebreaker ∧ pid ∉ g.tiebreakerPlayers) →
        alistGet (submitVote g pid vid).votes pid = some vid)
    ∧ (∀ (g : Game) (pid vid : Nat),
        g.state = GState.tiebreaker → pid ∉ g.tiebreakerPlayers →
        submitVote g pid vid = g) := by
  refine ⟨?_, ?_, ?_⟩
  · intro os g pid prid a
    unfold hasAnswer
    rw [submitAnswer_answers, alistGet_set_self]
    simp [alistGet_set_self]
  · intro g pid vid h
    rw [submitVote_votes g pid vid h, alistGet_set_self]
  · intro g pid vid h1 h2
    unfold submitVote
    rw [if_pos ⟨h1, h2⟩]

/-- C7 amended witness: the unvalidated answer and vote are recorded, and
a non-tied tiebreaker vote is a strict no-op. -/
theorem claim7_witness :
    hasAnswer (submitAnswer idOracle gC7a 1 99 "zz") 1 99 = true ∧
    alistGet (submitVote gC7v 3 77).votes 3 = some 77 ∧
    submitVote { gC7v with state := GState.tiebreaker, tiebreakerPlayers := [1, 2] } 3 77 =
      { gC7v with state := GState.tiebreaker, tiebreakerPlayers := [1, 2] } :=
  ⟨claim7_amended.1 idOracle gC7a 1 99 "zz",
   claim7_amended.2.1 gC7v 3 77 (by decide),
   claim7_amended.2.2 _ 3 77 rfl (by decide)⟩

/-! ## Percentage-of-pot arithmetic (C3) -/

theorem candVotes_optCnt (g : Game) (c : Option Nat) :
    candVotes g c = optCnt (voteValues g) c := by
  cases c <;> rfl

theorem natAward_final_zero (t m : Nat) : natAward true t 0 m = 0 := by
  simp [natAward]

theorem div_add_div_le (a b c : Nat) : a / c + b / c ≤ (a + b) / c := by
  rcases Nat.eq_zero_or_pos c with hc | hc
  · subst hc; simp
  · rw [Nat.le_div_iff_mul_le hc]
    have h1 : a / c * c ≤ a := Nat.div_mul_le_self a c
    have h2 : b / c * c ≤ b := Nat.div_mul_le_self b c
    calc (a / c + b / c) * c = a / c * c + b / c * c := by ring
    _ ≤ a + b := Nat.add_le_add h1 h2

theorem sum_div_le (c : Nat) :
    ∀ l : List Nat, (l.map (fun v => v * 1000 / c)).sum ≤ l.sum * 1000 / c := by
  intro l
  induction l with
  | nil => simp
  | cons v rest ih =>
      simp only [List.map_cons, List.sum_cons]
      calc v * 1000 / c + (rest.map (fun v => v * 1000 / c)).sum
          ≤ v * 1000 / c + rest.sum * 1000 / c := Nat.add_le_add_left ih _
        _ ≤ (v * 1000 + rest.sum * 1000) / c := div_add_div_le _ _ _
        _ = (v + rest.sum) * 1000 / c := by ring_nf

theorem cntV_filter_ne (c c' : Nat) (h : c' ≠ c) :
    ∀ vals : List Nat,
      cntV (vals.filter (fun x => !(decide (x = c)))) c' = cntV vals c' := by
  intro vals
  induction vals with
  | nil => rfl
  | cons v rest ih =>
      by_cases hv : v = c
      · have hv' : ¬ (v = c') := by rw [hv]; exact fun hh => h hh.symm
        have e1 : (v :: rest).filter (fun x => !(decide (x = c))) =
            rest.filter (fun x => !(decide (x = c))) := by
          simp [List.filter_cons, hv]
        have e2 : cntV (v :: rest) c' = cntV rest c' := by
          simp [cntV, List.filter_cons, hv']
        rw [e1, e2, ih]
      · have e1 : (v :: rest).filter (fun x => !(decide (x = c))) =
            v :: rest.filter (fun x => !(decide (x = c))) := by
          simp [List.filter_cons, hv]
        by_cases hv' : v = c'
        · have e2 : cntV (v :: rest.filter (fun x => !(decide (x = c)))) c' =
              cntV (rest.filter (fun x => !(decide (x = c)))) c' + 1 := by
            simp [cntV, List.filter_cons, hv']
          have e3 : cntV (v :: rest) c' = cntV rest c' + 1 := by
            simp [cntV, List.filter_cons, hv']
          rw [e1, e2, e3, ih]
        · have e2 : cntV (v :: rest.filter (fun x => !(decide (x = c)))) c' =
              cntV (rest.filter (fun x => !(decide (x = c)))) c' := by
            simp [cntV, List.filter_cons, hv']
          have e3 : cntV (v :: rest) c' = cntV rest c' := by
            simp [cntV, List.filter_cons, hv']
          rw [e1, e2, e3, ih]

theorem cntV_add_filter (c : Nat) :
    ∀ vals : List Nat,
      cntV vals c + (vals.filter (fun x => !(decide (x = c)))).length = vals.length := by
  intro vals
  induction vals with
  | nil => rfl
  | cons v rest ih =>
      by_cases hv : v = c
      · have e1 : cntV (v :: rest) c = cntV rest c + 1 := by
          simp [cntV, List.filter_cons, hv]
        have e2 : (v :: rest).filter (fun x => !(decide (x = c))) =
            rest.filter (fun x => !(decide (x = c))) := by
          simp [List.filter_cons, hv]
        rw [e1, e2, List.length_cons]
        omega
      · have e1 : cntV (v :: rest) c = cntV rest c := by
          simp [cntV, List.filter_cons, hv]
        have e2 : (v :: rest).filter (fun x => !(decide (x = c))) =
            v :: rest.filter (fun x => !(decide (x = c))) := by
          simp [List.filter_cons, hv]
        rw [e1, e2, List.length_cons, List.length_cons]
        omega

theorem sum_optCnt_le :
    ∀ (cands : List (Option Nat)), cands.Nodup →
      ∀ vals : List Nat, (cands.map (optCnt vals)).sum ≤ vals.length := by
  intro cands
  induction cands with
  | nil => intro _ vals; simp
  | cons c rest ih =>
      intro hnd vals
      obtain ⟨hmem, hnd'⟩ := List.nodup_cons.mp hnd
      cases c with
      | none =>
          simp only [List.map_cons, List.sum_cons, optCnt]
          simpa using ih hnd' vals
      | some cid =>
          have heq : rest.map (optCnt vals) =
              rest.map (optCnt (vals.filter (fun x => !(decide (x = cid))))) := by
            apply List.map_congr_left
            intro c' hc'
            cases c' with
            | none => rfl
            | some cid' =>
                have hne : cid' ≠ cid := by
                  rintro rfl; exact hmem hc'
                simp only [optCnt]
                exact (cntV_filter_ne cid cid' hne vals).symm
          have h1 := ih hnd' (vals.filter (fun x => !(decide (x = cid))))
          have h2 := cntV_add_filter cid vals
          simp only [List.map_cons, List.sum_cons, optCnt, heq]
          omega

theorem totalScore_cons (q : Player) (rest : List Player) :
    totalScore (q :: rest) = q.score + totalScore rest := by
  simp [totalScore]

theorem scoresLe_refl (ps : List Player) : scoresLe ps ps :=
  List.forall₂_same.mpr (fun _ _ => le_refl _)

theorem scoresLe_trans : ∀ {a b c : List Player}, scoresLe a b → scoresLe b c → scoresLe a c := by
  intro a b c h1 h2
  induction h1 generalizing c with
  | nil => cases h2; exact List.Forall₂.nil
  | cons hab _ ih =>
      cases h2 with
      | cons hbc h2' => exact List.Forall₂.cons (le_trans hab hbc) (ih h2')

theorem scoresLe_updateScore (ps : List Player) (pid : Nat) (d : Int) (hd : 0 ≤ d) :
    scoresLe ps (updateScore ps pid d) := by
  induction ps with
  | nil => exact List.Forall₂.nil
  | cons q rest ih =>
      by_cases hq : q.id = pid
      · simp only [updateScore, if_pos hq]
        exact List.Forall₂.cons (show q.score ≤ q.score + d by omega) (scoresLe_refl rest)
      · simp only [updateScore, if_neg hq]
        exact List.Forall₂.cons (le_refl _) ih

theorem totalScore_updateScore_le (pid : Nat) (d : Int) (hd : 0 ≤ d) :
    ∀ ps : List Player, totalScore (updateScore ps pid d) ≤ totalScore ps + d := by
  intro ps
  induction ps with
  | nil => simp [updateScore, totalScore]; exact hd
  | cons q rest ih =>
      by_cases hq : q.id = pid
      · simp [updateScore, if_pos hq, totalScore_cons]
        omega
      · simp only [updateScore, if_neg hq, totalScore_cons]
        omega

theorem foldl_award_scoresLe (A : Nat → Int) (hA : ∀ cid, 0 ≤ A cid) :
    ∀ (cands : List (Option Nat)) (ps : List Player),
      scoresLe ps (cands.foldl (fun ps c =>
        match c with
        | none => ps
        | some cid => updateScore ps cid (A cid)) ps) := by
  intro cands
  induction cands with
  | nil => intro ps; exact scoresLe_refl ps
  | cons c rest ih =>
      intro ps
      rw [List.foldl_cons]
      cases c with
      | none => exact ih ps
      | some cid =>
          exact scoresLe_trans (scoresLe_updateScore ps cid (A cid) (hA cid)) (ih _)

theorem foldl_award_totalScore (A : Nat → Int) (hA : ∀ cid, 0 ≤ A cid) :
    ∀ (cands : List (Option Nat)) (ps : List Player),
      totalScore (cands.foldl (fun ps c =>
          match c with
          | none => ps
          | some cid => updateScore ps cid (A cid)) ps) ≤
        totalScore ps +
          (cands.map (fun c => match c with | none => (0 : Int) | some cid => A cid)).sum := by
  intro cands
  induction cands with
  | nil => intro ps; simp
  | cons c rest ih =>
      intro ps
      rw [List.foldl_cons, List.map_cons, List.sum_cons]
      cases c with
      | none =>
          have := ih ps
          dsimp only
          omega
      | some cid =>
          have h1 := ih (updateScore ps cid (A cid))
          have h2 := totalScore_updateScore_le cid (A cid) (hA cid) ps
          dsimp only
          omega

theorem ofNat_sum_map {α : Type} (f : α → Nat) :
    ∀ l : List α, (l.map (fun x => Int.ofNat (f x))).sum = Int.ofNat ((l.map f).sum) := by
  intro l
  induction l with
  | nil => rfl
  | cons x rest ih =>
      simp only [List.map_cons, List.sum_cons, ih]
      exact (Int.ofNat_add _ _).symm

theorem natAward_total_zero (v m : Nat) : natAward true 0 v m = 0 := by
  simp [natAward]

theorem natAward_final_pos (t v m : Nat) (ht : 0 < t) :
    natAward true t v m = v * 1000 / t := by
  simp [natAward, ht]

/-- C3: for a match processed by the percentage-of-pot branch (the final
round), every player's score change is a non-negative integer (no score
decreases) and the total points handed out are at most 1500 - in fact the
pot caps the sum at 1000, under the claimed bound of
`baseValue + sweepBonus = 1500`. -/
theorem claim3_percentage_pot_bound (g : Game) (m : GMatch)
    (hm : g.votingMatches.get? g.currentMatchIndex = some m)
    (hfin : isFinalRound g = true)
    (hnd : (candidatesOf m).Nodup) :
    scoresLe g.players (processMatchResults g).players ∧
    totalScore (processMatchResults g).players ≤ totalScore g.players + 1500 := by
  unfold processMatchResults
  rw [hm]
  dsimp only
  constructor
  · exact foldl_award_scoresLe
      (fun cid => Int.ofNat (natAward (isFinalRound g) g.votes.length
        (candVotes g (some cid)) (((candidatesOf m).map (candVotes g)).foldl max 0)))
      (fun cid => Int.ofNat_nonneg _) (candidatesOf m) g.players
  · have hb := foldl_award_totalScore
      (fun cid => Int.ofNat (natAward (isFinalRound g) g.votes.length
        (candVotes g (some cid)) (((candidatesOf m).map (candVotes g)).foldl max 0)))
      (fun cid => Int.ofNat_nonneg _) (candidatesOf m) g.players
    refine le_trans hb ?_
    have hBc : ∀ c : Option Nat,
        (match c with
         | none => (0 : Int)
         | some cid => Int.ofNat (natAward (isFinalRound g) g.votes.length
             (candVotes g (some cid)) (((candidatesOf m).map (candVotes g)).foldl max 0))) =
          Int.ofNat (natAward true g.votes.length (optCnt (voteValues g) c)
            (((candidatesOf m).map (candVotes g)).foldl max 0)) := by
      intro c
      cases c with
      | none => rw [show optCnt (voteValues g) none = 0 from rfl, natAward_final_zero]; rfl
      | some cid =>
          dsimp only
          rw [hfin, candVotes_optCnt]
    rw [List.map_congr_left (fun c _ => hBc c), ofNat_sum_map]
    have hnat : ((candidatesOf m).map (fun c => natAward true g.votes.length
        (optCnt (voteValues g) c)
        (((candidatesOf m).map (candVotes g)).foldl max 0))).sum ≤ 1500 := by
      rcases Nat.eq_zero_or_pos g.votes.length with h0 | hpos
      · have : ∀ c ∈ candidatesOf m, natAward true g.votes.length
            (optCnt (voteValues g) c)
            (((candidatesOf m).map (candVotes g)).foldl max 0) = 0 := by
          intro c _
          rw [h0, natAward_total_zero]
        rw [List.map_congr_left this]
        simp
      · have hrw : ∀ c ∈ candidatesOf m, natAward true g.votes.length
            (optCnt (voteValues g) c)
            (((candidatesOf m).map (candVotes g)).foldl max 0) =
              optCnt (voteValues g) c * 1000 / g.votes.length := by
          intro c _
          rw [natAward_final_pos _ _ _ hpos]
        rw [List.map_congr_left hrw]
        have hlen : (voteValues g).length = g.votes.length := by simp [voteValues]
        calc ((candidatesOf m).map (fun c =>
                optCnt (voteValues g) c * 1000 / g.votes.length)).sum
            = (((candidatesOf m).map (optCnt (voteValues g))).map
                (fun v => v * 1000 / g.votes.length)).sum := by
              rw [List.map_map]; rfl
          _ ≤ ((candidatesOf m).map (optCnt (voteValues g))).sum * 1000 / g.votes.length :=
              sum_div_le _ _
          _ ≤ (voteValues g).length * 1000 / g.votes.length := by
              apply Nat.div_le_div_right
              exact Nat.mul_le_mul_right _ (sum_optCnt_le (candidatesOf m) hnd (voteValues g))
          _ = g.votes.length * 1000 / g.votes.length := by rw [hlen]
          _ = 1000 := by
              rw [Nat.mul_div_cancel_left _ hpos]
          _ ≤ 1500 := by omega
    have hcast := Int.ofNat_le.mpr hnat
    simp only [Int.ofNat_eq_natCast] at hcast ⊢
    omega

/-- C3 witness: the concrete final-round thriple match hands out
`666 + 333 = 999 ≤ 1500` points, and no score decreases. -/
theorem claim3_witness :
    gC3w.votingMatches.get? gC3w.currentMatchIndex =
      some (GMatch.thriple 1 "t"
        [PairCand.mk 1 "A" "a", PairCand.mk 2 "B" "b", PairCand.mk 3 "C" "c"]) ∧
    isFinalRound gC3w = true ∧
    (scoresLe gC3w.players (processMatchResults gC3w).players ∧
     totalScore (processMatchResults gC3w).players ≤ totalScore gC3w.players + 1500) :=
  ⟨rfl, rfl,
   claim3_percentage_pot_bound gC3w
     (GMatch.thriple 1 "t"
       [PairCand.mk 1 "A" "a", PairCand.mk 2 "B" "b", PairCand.mk 3 "C" "c"])
     rfl rfl (by decide)⟩

theorem rebindFirst_idscore :
    ∀ (ps : List Player) (name : String) (sid : Nat),
      (rebindFirst ps name sid).map (fun p => (p.id, p.score)) =
        ps.map (fun p => (p.id, p.score)) := by
  intro ps name sid
  induction ps with
  | nil => rfl
  | cons q rest ih =>
      by_cases hq : q.name = name
      · simp [rebindFirst, hq]
      · simp [rebindFirst, hq, ih]

/-- C4 counterexample: participant id 2 joins as "X" (while an earlier,
connected participant id 1 already has the same name), then disconnects;
a later join as "X" does not return participant 2 - it allocates a fresh
participant id 3 with score 0 and leaves participant 2 disconnected,
because the name lookup finds the first (connected) "X" first. -/
theorem claim4_counterexample :
    (alistGet mgrC4d.games "R").map
        (fun g => g.players.map (fun p => (p.id, p.name, p.isConnected))) =
      some [(1, "X", true), (2, "X", false)] ∧
    (mgrAddPlayer mgrC4d "R" "X" 13 3).1 = some (Player.mk 3 "X" (some 13) 0 true false) ∧
    (alistGet (mgrAddPlayer mgrC4d "R" "X" 13 3).2.games "R").map
        (fun g => g.players.map (fun p => (p.id, p.name, p.isConnected))) =
      some [(1, "X", true), (2, "X", false), (3, "X", true)] := by
  refine ⟨by decide, by decide, by decide⟩

/-- C4 amended: the reconnection rebind keys on the *first* participant in
join order bearing the name.  When that first participant is disconnected,
a join with the name rebinds it - same id, same accumulated score,
`isConnected` restored - and allocates nothing; when every name match is
connected (or the name is unseen) the join appends a fresh participant
with score 0.  A disconnected participant whose name is shared with an
earlier-joined, currently connected participant is therefore not rebound. -/
theorem claim4_amended :
    (∀ (m : Mgr) (room name : String) (sid newId : Nat) (g : Game) (ex : Player),
        alistGet m.games room = some g →
        getPlayerByName g name = some ex →
        ex.isConnected = false →
        ∃ p', (mgrAddPlayer m room name sid newId).1 = some p' ∧
          p'.id = ex.id ∧ p'.score = ex.score ∧ p'.isConnected = true ∧
          ∃ g', alistGet (mgrAddPlayer m room name sid newId).2.games room = some g' ∧
            g'.players.map (fun p => (p.id, p.score)) =
              g.players.map (fun p => (p.id, p.score)))
    ∧ (∀ (m : Mgr) (room name : String) (sid newId : Nat) (g : Game),
        alistGet m.games room = some g →
        (∀ ex, getPlayerByName g name = some ex → ex.isConnected = true) →
        ∃ p', (mgrAddPlayer m room name sid newId).1 = some p' ∧
          p'.id = newId ∧ p'.score = 0 ∧
          ∃ g', alistGet (mgrAddPlayer m room name sid newId).2.games room = some g' ∧
            g'.players = g.players ++ [Player.mk newId name (some sid) 0 true false]) := by
  constructor
  · intro m room name sid newId g ex hg hex hdisc
    have hnc : ¬ (ex.isConnected = true) := by rw [hdisc]; simp
    unfold mgrAddPlayer
    rw [hg]
    dsimp only
    rw [hex]
    dsimp only
    rw [if_neg hnc]
    exact ⟨_, rfl, rfl, rfl, rfl, _, alistGet_set_self _ _ _,
      rebindFirst_idscore g.players name sid⟩
  · intro m room name sid newId g hg hcon
    unfold mgrAddPlayer
    rw [hg]
    dsimp only
    cases hfound : getPlayerByName g name with
    | none =>
        dsimp only
        exact ⟨_, rfl, rfl, rfl, _, alistGet_set_self _ _ _, rfl⟩
    | some ex =>
        have := hcon ex hfound
        dsimp only
        rw [if_pos this]
        exact ⟨_, rfl, rfl, rfl, _, alistGet_set_self _ _ _, rfl⟩

/-- C4 amended witness: plain reconnection - "Alice" joins, disconnects,
rejoins - returns the same participant id and score with the connected
flag restored. -/
theorem claim4_witness :
    alistGet mgrW4b.games "R" = some gW4 ∧
    getPlayerByName gW4 "Alice" = some (Player.mk 1 "Alice" (some 21) 0 false false) ∧
    ∃ p', (mgrAddPlayer mgrW4b "R" "Alice" 22 5).1 = some p' ∧
      p'.id = (Player.mk 1 "Alice" (some 21) 0 false false).id ∧
      p'.score = (Player.mk 1 "Alice" (some 21) 0 false false).score ∧
      p'.isConnected = true ∧
      ∃ g', alistGet (mgrAddPlayer mgrW4b "R" "Alice" 22 5).2.games "R" = some g' ∧
        g'.players.map (fun p => (p.id, p.score)) =
          gW4.players.map (fun p => (p.id, p.score)) :=
  ⟨by decide, by decide,
   claim4_amended.1 mgrW4b "R" "Alice" 22 5 gW4
     (Player.mk 1 "Alice" (some 21) 0 false false) (by decide) (by decide) rfl⟩

/-! ## Answer-deadline auto-fill lemmas (C5) -/

theorem hasAnswer_submitAnswer_self (os : Oracle) (g : Game) (pid prid : Nat) (a : String) :
    hasAnswer (submitAnswer os g pid prid a) pid prid = true := by
  unfold hasAnswer
  rw [submitAnswer_answers, alistGet_set_self]
  simp [alistGet_set_self]

theorem hasAnswer_submitAnswer_mono (os : Oracle) (g : Game) (pid prid x y : Nat) (a : String)
    (h : hasAnswer g x y = true) :
    hasAnswer (submitAnswer os g pid prid a) x y = true := by
  unfold hasAnswer at h ⊢
  rw [submitAnswer_answers]
  by_cases hx : pid = x
  · subst hx
    rw [alistGet_set_self]
    simp only [Option.getD_some]
    rw [alistGet_set]
    by_cases hy : prid = y
    · rw [if_pos hy]; simp
    · rw [if_neg hy]; exact h
  · rw [alistGet_set, if_neg hx]; exact h

theorem foldl_hasAnswer_mono {α : Type} (step : Game → α → Game)
    (hstep : ∀ acc x p q, hasAnswer acc p q = true → hasAnswer (step acc x) p q = true) :
    ∀ (l : List α) (acc : Game) (p q : Nat),
      hasAnswer acc p q = true → hasAnswer (l.foldl step acc) p q = true := by
  intro l
  induction l with
  | nil => intro acc p q h; exact h
  | cons x rest ih =>
      intro acc p q h
      rw [List.foldl_cons]
      exact ih _ _ _ (hstep acc x p q h)

theorem fillPlayerPrompts_mono (os : Oracle) (pid : Nat) (pans : List (Nat × String))
    (prs : List Assignment) (acc : Game) (x y : Nat)
    (h : hasAnswer acc x y = true) :
    hasAnswer (fillPlayerPrompts os pid pans prs acc) x y = true := by
  unfold fillPlayerPrompts
  refine foldl_hasAnswer_mono _ ?_ prs acc x y h
  intro acc2 pr p q hpq
  dsimp only
  split
  · exact hpq
  · exact hasAnswer_submitAnswer_mono os acc2 pid pr.promptId p q _ hpq

theorem fillPlayerPrompts_currentPrompts (os : Oracle) (pid : Nat)
    (pans : List (Nat × String)) (prs : List Assignment) (acc : Game) :
    (fillPlayerPrompts os pid pans prs acc).currentPrompts = acc.currentPrompts := by
  unfold fillPlayerPrompts
  refine foldl_proj (fun g => g.currentPrompts) _ ?_ prs acc
  intro acc2 pr
  dsimp only
  split
  · rfl
  · exact submitAnswer_currentPrompts _ _ _ _ _

theorem fillPlayerPrompts_covers (os : Oracle) (pid : Nat) (pans : List (Nat × String)) :
    ∀ (prs : List Assignment) (acc : Game),
      (∀ y, (alistGet pans y).isSome = true → hasAnswer acc pid y = true) →
      ∀ pr ∈ prs, hasAnswer (fillPlayerPrompts os pid pans prs acc) pid pr.promptId = true := by
  intro prs
  induction prs with
  | nil => intro acc _ pr hpr; simp at hpr
  | cons pr0 rest ih =>
      intro acc hinv pr hpr
      unfold fillPlayerPrompts
      rw [List.foldl_cons]
      by_cases hc : (alistGet pans pr0.promptId).isSome = true
      · rw [show (if (alistGet pans pr0.promptId).isSome = true then acc
            else submitAnswer os acc pid pr0.promptId "(No answer submitted)") = acc
            from if_pos hc]
        rcases List.mem_cons.mp hpr with rfl | hmem
        · exact fillPlayerPrompts_mono os pid pans rest acc pid pr.promptId (hinv _ hc)
        · exact ih acc hinv pr hmem
      · rw [show (if (alistGet pans pr0.promptId).isSome = true then acc
            else submitAnswer os acc pid pr0.promptId "(No answer submitted)") =
            submitAnswer os acc pid pr0.promptId "(No answer submitted)"
            from if_neg hc]
        have hinv2 : ∀ y, (alistGet pans y).isSome = true →
            hasAnswer (submitAnswer os acc pid pr0.promptId "(No answer submitted)") pid y = true :=
          fun y hy => hasAnswer_submitAnswer_mono os acc pid pr0.promptId pid y _ (hinv y hy)
        rcases List.mem_cons.mp hpr with rfl | hmem
        · exact fillPlayerPrompts_mono os pid pans rest _ pid pr.promptId
            (hasAnswer_submitAnswer_self os acc pid pr.promptId _)
        · exact ih _ hinv2 pr hmem

theorem fillPlayer_currentPrompts (os : Oracle) (acc : Game) (p : Player) :
    (fillPlayer os acc p).currentPrompts = acc.currentPrompts := by
  unfold fillPlayer
  exact fillPlayerPrompts_currentPrompts _ _ _ _ _

theorem fillPlayer_mono (os : Oracle) (acc : Game) (pl : Player) (x y : Nat)
    (h : hasAnswer acc x y = true) :
    hasAnswer (fillPlayer os acc pl) x y = true := by
  unfold fillPlayer
  exact fillPlayerPrompts_mono _ _ _ _ _ _ _ h

theorem fillPlayer_covers (os : Oracle) (acc : Game) (p : Player) :
    ∀ pr ∈ acc.currentPrompts, pr.playerId = p.id →
      hasAnswer (fillPlayer os acc p) p.id pr.promptId = true := by
  intro pr hpr hpid
  unfold fillPlayer
  refine fillPlayerPrompts_covers os p.id _ _ acc (fun y hy => hy) pr ?_
  exact List.mem_filter.mpr ⟨hpr, by simp [hpid]⟩

theorem fillMissing_covers (os : Oracle) :
    ∀ (ps : List Player) (acc : Game) (CP : List Assignment),
      acc.currentPrompts = CP →
      ∀ p ∈ ps, ∀ pr ∈ CP, pr.playerId = p.id →
        hasAnswer (ps.foldl (fillPlayer os) acc) p.id pr.promptId = true := by
  intro ps
  induction ps with
  | nil => intro acc CP _ p hp; simp at hp
  | cons q rest ih =>
      intro acc CP hCP p hp pr hpr hpid
      rw [List.foldl_cons]
      have hCP2 : (fillPlayer os acc q).currentPrompts = CP := by
        rw [fillPlayer_currentPrompts, hCP]
      rcases List.mem_cons.mp hp with rfl | hmem
      · have h1 : hasAnswer (fillPlayer os acc p) p.id pr.promptId = true :=
          fillPlayer_covers os acc p pr (hCP ▸ hpr) hpid
        exact foldl_hasAnswer_mono (fillPlayer os)
          (fun a x u v h => fillPlayer_mono os a x u v h) rest _ _ _ h1
      · exact ih (fillPlayer os acc q) CP hCP2 p hmem pr hpr hpid

theorem totalAnswers_congr (g h : Game) (e : g.answers = h.answers) :
    totalAnswers g = totalAnswers h := by
  unfold totalAnswers
  rw [e]

theorem submitAnswer_not_complete (os : Oracle) (g : Game) (pid prid : Nat) (a : String)
    (h : allAnswersSubmitted
        { g with answers :=
            alistSet g.answers pid (alistSet ((alistGet g.answers pid).getD []) prid a) } =
      false) :
    submitAnswer os g pid prid a =
      { g with answers :=
          alistSet g.answers pid (alistSet ((alistGet g.answers pid).getD []) prid a) } := by
  unfold submitAnswer
  dsimp only
  rw [h]
  simp

/-- C5 counterexample: in a 4-player shared-prompt round where player 4's
required pair is unanswered, an answer for an *unassigned* prompt pushes
the total count to the assignment count and fires the Voting transition -
so the transition does not fire "exactly when every required pair has a
submitted answer". -/
theorem claim5_counterexample :
    (∀ pr ∈ gC5.currentPrompts, pr.promptId = 1) ∧
    hasAnswer gC5 4 1 = false ∧
    (∀ pr ∈ gC5.currentPrompts, ¬ (pr.playerId = 1 ∧ pr.promptId = 2)) ∧
    (submitAnswer idOracle gC5 1 2 "rogue").state = GState.voting ∧
    (submitAnswer idOracle gC5 1 2 "rogue").votingMatches ≠ [] ∧
    hasAnswer (submitAnswer idOracle gC5 1 2 "rogue") 4 1 = false := by
  refine ⟨by decide, by decide, by decide, by decide, by decide, by decide⟩

/-- C5 amended: the Answering-to-Voting transition fires when the *total
count* of submitted (participant, prompt) answers reaches the number of
assignment entries - which coincides with "every required pair answered"
only when submissions target assigned prompts - and on the answer
deadline, every (participant, assigned prompt) pair of a present
participant that is still missing an answer is auto-filled with the
sentinel text, so afterwards no required pair of a present participant is
unanswered. -/
theorem claim5_amended :
    (∀ (os : Oracle) (g : Game) (pid prid : Nat) (a : String),
        totalAnswers (submitAnswer os g pid prid a) < g.currentPrompts.length →
        (submitAnswer os g pid prid a).state = g.state ∧
        (submitAnswer os g pid prid a).votingMatches = g.votingMatches)
    ∧ (∀ (os : Oracle) (g : Game),
        g.state = GState.answering →
        ∀ pr ∈ g.currentPrompts, ∀ p ∈ g.players, pr.playerId = p.id →
          hasAnswer (handleTimerEnd os g "answer") pr.playerId pr.promptId = true) := by
  constructor
  · intro os g pid prid a h
    have he : (submitAnswer os g pid prid a).answers =
        alistSet g.answers pid (alistSet ((alistGet g.answers pid).getD []) prid a) :=
      submitAnswer_answers os g pid prid a
    have ht : totalAnswers (submitAnswer os g pid prid a) =
        totalAnswers
          { g with answers :=
              alistSet g.answers pid (alistSet ((alistGet g.answers pid).getD []) prid a) } :=
      totalAnswers_congr _ _ he
    have hfalse : allAnswersSubmitted
        { g with answers :=
            alistSet g.answers pid (alistSet ((alistGet g.answers pid).getD []) prid a) } =
        false := by
      unfold allAnswersSubmitted
      simp only [decide_eq_false_iff_not]
      rw [← ht]
      show ¬ (g.currentPrompts.length ≤ totalAnswers (submitAnswer os g pid prid a))
      omega
    rw [submitAnswer_not_complete os g pid prid a hfalse]
    exact ⟨rfl, rfl⟩
  · intro os g hstate pr hpr p hp hpid
    have hbranch : handleTimerEnd os g "answer" =
        fillMissingAnswers os (clearTimer g "answer") := by
      unfold handleTimerEnd
      dsimp only
      have h1 : ¬(("answer" : String) = "intermission" ∧
          (clearTimer g "answer").state = GState.intermission) :=
        fun hc => absurd hc.1 (by decide)
      have h2 : ("answer" : String) = "answer" ∧
          (clearTimer g "answer").state = GState.answering := ⟨rfl, hstate⟩
      rw [if_neg h1, if_pos h2]
    rw [hbranch, hpid]
    unfold fillMissingAnswers
    exact fillMissing_covers os (clearTimer g "answer").players (clearTimer g "answer")
      g.currentPrompts rfl p hp pr hpr hpid

/-- C5 amended witness: a sub-threshold submission leaves the phase and
match list unchanged, and firing the answer deadline on the 4-player room
fills player 4's required pair. -/
theorem claim5_witness :
    totalAnswers (submitAnswer idOracle gC7a 1 99 "zz") < gC7a.currentPrompts.length ∧
    ((submitAnswer idOracle gC7a 1 99 "zz").state = gC7a.state ∧
     (submitAnswer idOracle gC7a 1 99 "zz").votingMatches = gC7a.votingMatches) ∧
    gC5.state = GState.answering ∧
    hasAnswer (handleTimerEnd idOracle gC5 "answer") 4 1 = true :=
  ⟨by decide,
   claim5_amended.1 idOracle gC7a 1 99 "zz" (by decide),
   rfl,
   claim5_amended.2 idOracle gC5 rfl (Assignment.mk 4 1 "t") (by decide) (mkP 4 "D")
     (by decide) rfl⟩

/-! ## Pair-builder lemmas (C6) -/

theorem subperm_append {α : Type} {a b c d : List α}
    (h1 : a.Subperm b) (h2 : c.Subperm d) : (a ++ c).Subperm (b ++ d) := by
  obtain ⟨l1, hp1, hs1⟩ := h1
  obtain ⟨l2, hp2, hs2⟩ := h2
  exact ⟨l1 ++ l2, hp1.append hp2, hs1.append hs2⟩

theorem nodup_of_subperm {α : Type} {a b : List α} (h : a.Subperm b) (hn : b.Nodup) :
    a.Nodup := by
  obtain ⟨l, hp, hs⟩ := h
  exact hp.nodup_iff.mp (hs.nodup hn)

theorem pairUp_length {α : Type} : ∀ l : List α, (pairUp l).length = l.length / 2
  | [] => by simp [pairUp]
  | [_] => by simp [pairUp]
  | _ :: _ :: rest => by
      have ih := pairUp_length rest
      show (pairUp rest).length + 1 = (rest.length + 1 + 1) / 2
      omega

theorem pairUp_flat_sublist {α : Type} :
    ∀ l : List α, (((pairUp l).map (fun ab => [ab.1, ab.2])).flatten).Sublist l
  | [] => List.Sublist.refl _
  | [_] => List.nil_sublist _
  | a :: b :: rest => by
      show (a :: b :: ((pairUp rest).map (fun ab => [ab.1, ab.2])).flatten).Sublist
        (a :: b :: rest)
      exact List.Sublist.cons₂ a (List.Sublist.cons₂ b (pairUp_flat_sublist rest))

theorem reE_eq (prid : Nat) (e : AnsEntry) (h : e.promptId = prid) :
    AnsEntry.mk e.playerId prid e.answer = e := by
  cases e
  simp only at h
  rw [h]

theorem pairUp_flat_reE (prid : Nat) :
    ∀ l : List AnsEntry, (∀ e ∈ l, e.promptId = prid) →
      ((pairUp l).map (fun ab => [AnsEntry.mk ab.1.playerId prid ab.1.answer,
          AnsEntry.mk ab.2.playerId prid ab.2.answer])).flatten =
        ((pairUp l).map (fun ab => [ab.1, ab.2])).flatten
  | [], _ => rfl
  | [_], _ => rfl
  | a :: b :: rest, h => by
      show AnsEntry.mk a.playerId prid a.answer :: AnsEntry.mk b.playerId prid b.answer ::
          ((pairUp rest).map (fun ab => [AnsEntry.mk ab.1.playerId prid ab.1.answer,
            AnsEntry.mk ab.2.playerId prid ab.2.answer])).flatten =
        a :: b :: ((pairUp rest).map (fun ab => [ab.1, ab.2])).flatten
      rw [reE_eq prid a (h a (by simp)), reE_eq prid b (h b (by simp)),
        pairUp_flat_reE prid rest
          (fun e he => h e (List.mem_cons_of_mem _ (List.mem_cons_of_mem _ he)))]

theorem grpWF_insertGrp (gs : List (Nat × List AnsEntry)) (e : AnsEntry) (h : grpWF gs) :
    grpWF (insertGrp gs e) := by
  induction gs with
  | nil =>
      intro pr hpr e' he'
      simp only [insertGrp, List.mem_singleton] at hpr
      subst hpr
      simp only [List.mem_singleton] at he'
      subst he'
      rfl
  | cons kv rest ih =>
      obtain ⟨k, es⟩ := kv
      have hrest : grpWF rest := fun pr hpr => h pr (List.mem_cons_of_mem _ hpr)
      intro pr hpr e' he'
      by_cases hk : k = e.promptId
      · simp only [insertGrp, if_pos hk] at hpr
        rcases List.mem_cons.mp hpr with rfl | hmem
        · rcases List.mem_append.mp he' with h1 | h2
          · exact h (k, es) (List.mem_cons_self _ _) e' h1
          · simp only [List.mem_singleton] at h2
            subst h2
            exact hk.symm
        · exact hrest pr hmem e' he'
      · simp only [insertGrp, if_neg hk] at hpr
        rcases List.mem_cons.mp hpr with rfl | hmem
        · exact h (k, es) (List.mem_cons_self _ _) e' he'
        · exact ih hrest pr hmem e' he'

theorem groupsFlat_insertGrp (e : AnsEntry) :
    ∀ gs : List (Nat × List AnsEntry),
      (groupsFlat (insertGrp gs e)).Perm (groupsFlat gs ++ [e])
  | [] => List.Perm.refl _
  | (k, es) :: rest => by
      by_cases hk : k = e.promptId
      · simp only [insertGrp, if_pos hk]
        show ((es ++ [e]) ++ groupsFlat rest).Perm ((es ++ groupsFlat rest) ++ [e])
        rw [List.append_assoc es [e] (groupsFlat rest),
          List.append_assoc es (groupsFlat rest) [e]]
        exact List.Perm.append_left es List.perm_append_comm
      · simp only [insertGrp, if_neg hk]
        show (es ++ groupsFlat (insertGrp rest e)).Perm ((es ++ groupsFlat rest) ++ [e])
        rw [List.append_assoc es (groupsFlat rest) [e]]
        exact List.Perm.append_left es (groupsFlat_insertGrp e rest)

theorem grpWF_foldl :
    ∀ (l : List AnsEntry) (gs : List (Nat × List AnsEntry)),
      grpWF gs → grpWF (l.foldl insertGrp gs)
  | [], _, h => h
  | e :: rest, gs, h => grpWF_foldl rest _ (grpWF_insertGrp gs e h)

theorem groupsFlat_foldl :
    ∀ (l : List AnsEntry) (gs : List (Nat × List AnsEntry)),
      (groupsFlat (l.foldl insertGrp gs)).Perm (groupsFlat gs ++ l)
  | [], gs => by
      rw [List.foldl_nil, List.append_nil]
  | e :: rest, gs => by
      rw [List.foldl_cons]
      refine (groupsFlat_foldl rest (insertGrp gs e)).trans ?_
      refine (List.Perm.append_right rest (groupsFlat_insertGrp e gs)).trans ?_
      rw [List.append_assoc]
      exact List.Perm.refl _

theorem grpWF_groupByPrompt (l : List AnsEntry) : grpWF (groupByPrompt l) :=
  grpWF_foldl l [] (fun pr hpr => by simp at hpr)

theorem groupsFlat_groupByPrompt (l : List AnsEntry) :
    (groupsFlat (groupByPrompt l)).Perm l := by
  have h := groupsFlat_foldl l []
  simpa [groupsFlat] using h

theorem flatten_map_flatten {β γ : Type} (f : β → List γ) :
    ∀ h : List (List β),
      (h.flatten.map f).flatten = (h.map (fun bs => (bs.map f).flatten)).flatten
  | [] => rfl
  | bs :: rest => by
      show ((bs ++ rest.flatten).map f).flatten =
        (bs.map f).flatten ++ (rest.map (fun bs => (bs.map f).flatten)).flatten
      rw [List.map_append, List.flatten_append, flatten_map_flatten f rest]

theorem buildPairMatches_entries_subperm (os : Oracle) (g : Game) (pr : Nat × List AnsEntry)
    (hWF : ∀ e ∈ pr.2, e.promptId = pr.1) (hA : (os.shuffleAns pr.2).Perm pr.2) :
    (((buildPairMatches os g pr).map matchEntries).flatten).Subperm pr.2 := by
  unfold buildPairMatches
  rw [List.map_map]
  show (((pairUp (os.shuffleAns pr.2)).map (fun ab =>
      [AnsEntry.mk ab.1.playerId pr.1 ab.1.answer,
       AnsEntry.mk ab.2.playerId pr.1 ab.2.answer])).flatten).Subperm pr.2
  rw [pairUp_flat_reE pr.1 (os.shuffleAns pr.2) (fun e he => hWF e (hA.mem_iff.mp he))]
  exact (pairUp_flat_sublist (os.shuffleAns pr.2)).subperm.trans hA.subperm

theorem groups_entries_subperm (os : Oracle) (g : Game)
    (hA : ∀ l, (os.shuffleAns l).Perm l) :
    ∀ gs : List (Nat × List AnsEntry), grpWF gs →
      ((gs.map (fun pr => ((buildPairMatches os g pr).map matchEntries).flatten)).flatten).Subperm
        (groupsFlat gs)
  | [], _ => List.nil_subperm
  | pr :: rest, hWF => by
      show (((buildPairMatches os g pr).map matchEntries).flatten ++
          (rest.map (fun pr => ((buildPairMatches os g pr).map matchEntries).flatten)).flatten).Subperm
        (pr.2 ++ groupsFlat rest)
      exact subperm_append
        (buildPairMatches_entries_subperm os g pr (hWF pr (List.mem_cons_self _ _)) (hA pr.2))
        (groups_entries_subperm os g hA rest (fun q hq => hWF q (List.mem_cons_of_mem _ hq)))

/-- C6: the pair builder groups answers by shared promptId, pairs
sequentially within each shuffled group and drops an unpaired remainder:
the number of matches is the sum of `groupSize / 2` over the prompt
groups, every match is a pair object, and the answer content across all
matches is a sub-permutation of the submitted answers - so no answer is
merged into another match or presented twice. -/
theorem claim6_pair_grouping (os : Oracle)
    (hA : ∀ l, (os.shuffleAns l).Perm l)
    (hM : ∀ l, (os.shuffleMatches l).Perm l) (g : Game) :
    (createAnswerPairs os g).length =
      ((groupByPrompt (flatAnswers g)).map (fun pr => pr.2.length / 2)).sum ∧
    (allEntries (createAnswerPairs os g)).Subperm (flatAnswers g) ∧
    ((flatAnswers g).Nodup → (allEntries (createAnswerPairs os g)).Nodup) ∧
    (∀ m ∈ createAnswerPairs os g, ∃ prid t c1 c2, m = GMatch.pair prid t c1 c2) := by
  have hcap : createAnswerPairs os g =
      os.shuffleMatches
        ((groupByPrompt (flatAnswers g)).map (buildPairMatches os g)).flatten := rfl
  have hsub : (allEntries (createAnswerPairs os g)).Subperm (flatAnswers g) := by
    have h1 : (allEntries (createAnswerPairs os g)).Perm
        (allEntries ((groupByPrompt (flatAnswers g)).map (buildPairMatches os g)).flatten) := by
      rw [hcap]
      unfold allEntries
      exact ((hM _).map matchEntries).flatten
    have h2 : allEntries ((groupByPrompt (flatAnswers g)).map (buildPairMatches os g)).flatten =
        ((groupByPrompt (flatAnswers g)).map
          (fun pr => ((buildPairMatches os g pr).map matchEntries).flatten)).flatten := by
      unfold allEntries
      rw [flatten_map_flatten matchEntries, List.map_map]
      rfl
    refine h1.subperm.trans ?_
    rw [h2]
    exact (groups_entries_subperm os g hA _ (grpWF_groupByPrompt _)).trans
      (groupsFlat_groupByPrompt _).subperm
  refine ⟨?_, hsub, fun hnd => nodup_of_subperm hsub hnd, ?_⟩
  · rw [hcap, (hM _).length_eq, List.length_flatten, List.map_map]
    refine congrArg List.sum (List.map_congr_left ?_)
    intro pr _
    show (buildPairMatches os g pr).length = pr.2.length / 2
    unfold buildPairMatches
    rw [List.length_map, pairUp_length, (hA pr.2).length_eq]
  · intro m hm
    rw [hcap] at hm
    have hm2 := (hM _).mem_iff.mp hm
    simp only [List.mem_flatten, List.mem_map] at hm2
    obtain ⟨sub, ⟨pr, _, rfl⟩, hmsub⟩ := hm2
    unfold buildPairMatches at hmsub
    simp only [List.mem_map] at hmsub
    obtain ⟨ab, _, rfl⟩ := hmsub
    exact ⟨pr.1, promptTextOf g pr.1, candOf g ab.1, candOf g ab.2, rfl⟩

/-- C6 witness: four participants all answering the one shared prompt
produce exactly 2 matches, and no answer appears in more than one match. -/
theorem claim6_witness :
    (createAnswerPairs idOracle gC6).length = 2 ∧
    (allEntries (createAnswerPairs idOracle gC6)).Subperm (flatAnswers gC6) ∧
    (allEntries (createAnswerPairs idOracle gC6)).Nodup := by
  have h := claim6_pair_grouping idOracle (fun l => List.Perm.refl l)
    (fun l => List.Perm.refl l) gC6
  exact ⟨h.1.trans (by decide), h.2.1, h.2.2.1 (by decide)⟩

/-! ## Score monotonicity lemmas (C9) -/

theorem foldl_scoresLe_inv {α : Type} (step : Game → α → Game)
    (hstep : ∀ (acc : Game) (x : α), scoresLe acc.players (step acc x).players) :
    ∀ (l : List α) (g : Game), scoresLe g.players (l.foldl step g).players := by
  intro l
  induction l with
  | nil => intro g; exact scoresLe_refl _
  | cons x rest ih =>
      intro g
      rw [List.foldl_cons]
      exact scoresLe_trans (hstep g x) (ih (step g x))

theorem processMatchResults_scoresLe (g : Game) :
    scoresLe g.players (processMatchResults g).players := by
  unfold processMatchResults
  split
  · exact scoresLe_refl _
  · dsimp only
    exact foldl_award_scoresLe _ (fun cid => Int.ofNat_nonneg _) _ _

theorem foldl_winner_scoresLe :
    ∀ (ws : List Nat) (ps : List Player),
      scoresLe ps (ws.foldl (fun ps w => updateScore ps w 500) ps) := by
  intro ws
  induction ws with
  | nil => intro ps; exact scoresLe_refl _
  | cons w rest ih =>
      intro ps
      rw [List.foldl_cons]
      exact scoresLe_trans (scoresLe_updateScore ps w 500 (by omega)) (ih _)

theorem calculateTiebreakerResults_scoresLe (g : Game) :
    scoresLe g.players (calculateTiebreakerResults g).players := by
  unfold calculateTiebreakerResults
  dsimp only
  exact foldl_winner_scoresLe _ g.players

theorem processMatchResults_scoresLe' (g : Game) (ps : List Player) (e : ps = g.players) :
    scoresLe ps (processMatchResults g).players :=
  e ▸ processMatchResults_scoresLe g

theorem completeTiebreaker_scoresLe' (g : Game) (ps : List Player) (e : ps = g.players) :
    scoresLe ps (completeTiebreaker g).players :=
  e ▸ calculateTiebreakerResults_scoresLe g

theorem submitVote_scoresLe (g : Game) (pid vid : Nat) :
    scoresLe g.players (submitVote g pid vid).players := by
  unfold submitVote
  split
  · exact scoresLe_refl _
  · dsimp only
    split
    · split
      · exact completeTiebreaker_scoresLe' _ _ rfl
      · exact processMatchResults_scoresLe' _ _ rfl
    · exact scoresLe_refl _

theorem simulateBotVotesForMatch_scoresLe (os : Oracle) (g : Game) (m : GMatch) :
    scoresLe g.players (simulateBotVotesForMatch os g m).players := by
  unfold simulateBotVotesForMatch
  split
  · refine foldl_scoresLe_inv _ ?_ _ g
    intro acc p
    dsimp only
    split
    · exact submitVote_scoresLe _ _ _
    · exact scoresLe_refl _
  · exact scoresLe_refl _

theorem simulateBotVotesForMatch_scoresLe' (os : Oracle) (g : Game) (m : GMatch)
    (ps : List Player) (e : ps = g.players) :
    scoresLe ps (simulateBotVotesForMatch os g m).players :=
  e ▸ simulateBotVotesForMatch_scoresLe os g m

theorem startNextVotingMatch_scoresLe (os : Oracle) (g : Game) :
    scoresLe g.players (startNextVotingMatch os g).players := by
  unfold startNextVotingMatch
  split
  · exact scoresLe_refl _
  · split
    · exact scoresLe_refl _
    · exact simulateBotVotesForMatch_scoresLe' _ _ _ _ rfl

theorem startNextVotingMatch_scoresLe' (os : Oracle) (g : Game) (ps : List Player)
    (e : ps = g.players) :
    scoresLe ps (startNextVotingMatch os g).players :=
  e ▸ startNextVotingMatch_scoresLe os g

theorem startVotingPhase_scoresLe (os : Oracle) (g : Game) :
    scoresLe g.players (startVotingPhase os g).players := by
  unfold startVotingPhase
  exact startNextVotingMatch_scoresLe' _ _ _ rfl

theorem startVotingPhase_scoresLe' (os : Oracle) (g : Game) (ps : List Player)
    (e : ps = g.players) :
    scoresLe ps (startVotingPhase os g).players :=
  e ▸ startVotingPhase_scoresLe os g

theorem submitAnswer_scoresLe (os : Oracle) (g : Game) (pid prid : Nat) (a : String) :
    scoresLe g.players (submitAnswer os g pid prid a).players := by
  unfold submitAnswer
  dsimp only
  split
  · exact startVotingPhase_scoresLe' _ _ _ rfl
  · exact scoresLe_refl _

theorem fillPlayerPrompts_scoresLe (os : Oracle) (pid : Nat) (pans : List (Nat × String))
    (prs : List Assignment) (acc : Game) :
    scoresLe acc.players (fillPlayerPrompts os pid pans prs acc).players := by
  unfold fillPlayerPrompts
  refine foldl_scoresLe_inv _ ?_ prs acc
  intro acc2 pr
  dsimp only
  split
  · exact scoresLe_refl _
  · exact submitAnswer_scoresLe _ _ _ _ _

theorem fillPlayer_scoresLe (os : Oracle) (acc : Game) (p : Player) :
    scoresLe acc.players (fillPlayer os acc p).players := by
  unfold fillPlayer
  exact fillPlayerPrompts_scoresLe _ _ _ _ _

theorem fillMissingAnswers_scoresLe (os : Oracle) (g : Game) :
    scoresLe g.players (fillMissingAnswers os g).players := by
  unfold fillMissingAnswers
  exact foldl_scoresLe_inv _ (fun acc p => fillPlayer_scoresLe os acc p) _ g

theorem fillMissingAnswers_scoresLe' (os : Oracle) (g : Game) (ps : List Player)
    (e : ps = g.players) :
    scoresLe ps (fillMissingAnswers os g).players :=
  e ▸ fillMissingAnswers_scoresLe os g

theorem handleTimerEnd_scoresLe (os : Oracle) (g : Game) (tn : String) :
    scoresLe g.players (handleTimerEnd os g tn).players := by
  unfold handleTimerEnd
  dsimp only
  split
  · exact scoresLe_refl _
  · split
    · exact fillMissingAnswers_scoresLe' _ _ _ rfl
    · split
      · exact processMatchResults_scoresLe' _ _ rfl
      · split
        · exact completeTiebreaker_scoresLe' _ _ rfl
        · exact scoresLe_refl _

theorem rebindFirst_scores :
    ∀ (ps : List Player) (name : String) (sid : Nat),
      (rebindFirst ps name sid).map (fun p => p.score) = ps.map (fun p => p.score) := by
  intro ps name sid
  induction ps with
  | nil => rfl
  | cons q rest ih =>
      by_cases hq : q.name = name
      · simp [rebindFirst, hq]
      · simp [rebindFirst, hq, ih]

theorem disconnectFirst_scores :
    ∀ (ps : List Player) (pid : Nat),
      (disconnectFirst ps pid).map (fun p => p.score) = ps.map (fun p => p.score) := by
  intro ps pid
  induction ps with
  | nil => rfl
  | cons q rest ih =>
      by_cases hq : q.id = pid
      · simp [disconnectFirst, hq]
      · simp [disconnectFirst, hq, ih]

theorem scoresLe_of_map_eq :
    ∀ (ps qs : List Player),
      ps.map (fun p => p.score) = qs.map (fun p => p.score) → scoresLe ps qs
  | [], [], _ => List.Forall₂.nil
  | [], _ :: _, h => by simp at h
  | _ :: _, [], h => by simp at h
  | p :: ps, q :: qs, h => by
      simp only [List.map_cons, List.cons.injEq] at h
      exact List.Forall₂.cons (le_of_eq h.1) (scoresLe_of_map_eq ps qs h.2)

theorem nonneg_of_scoresLe :
    ∀ {ps qs : List Player}, scoresLe ps qs → nonnegScores ps → nonnegScores qs := by
  intro ps qs h
  induction h with
  | nil => intro _ q hq; simp at hq
  | cons hpq _ ih =>
      intro hn q hq
      rcases List.mem_cons.mp hq with rfl | hmem
      · have := hn _ (List.mem_cons_self _ _)
        omega
      · exact ih (fun p hp => hn p (List.mem_cons_of_mem _ hp)) q hmem

/-- C9: scores are monotonically non-decreasing and stay non-negative.
No session operation - answer submission, vote submission (and the match
or tiebreaker processing it triggers), any deadline firing, a join or
reconnection, a disconnection - ever decreases a participant's score;
joins only ever append fresh participants with score 0; and pointwise
non-decrease from an all-non-negative state keeps every score ≥ 0. -/
theorem claim9_scores_monotone :
    (∀ (os : Oracle) (g : Game) (pid prid : Nat) (a : String),
        scoresLe g.players (submitAnswer os g pid prid a).players)
    ∧ (∀ (g : Game) (pid vid : Nat), scoresLe g.players (submitVote g pid vid).players)
    ∧ (∀ (os : Oracle) (g : Game) (tn : String),
        scoresLe g.players (handleTimerEnd os g tn).players)
    ∧ (∀ (m : Mgr) (room name : String) (sid newId : Nat) (g : Game),
        alistGet m.games room = some g →
        ∃ g', alistGet (mgrAddPlayer m room name sid newId).2.games room = some g' ∧
          scoresLe g.players (g'.players.take g.players.length) ∧
          ∀ p ∈ g'.players.drop g.players.length, p.score = 0)
    ∧ (∀ (m : Mgr) (sid : Nat) (room : String) (g : Game),
        alistGet m.games room = some g →
        ∃ g', alistGet (mgrHandleDisconnect m sid).games room = some g' ∧
          g'.players.map (fun p => p.score) = g.players.map (fun p => p.score))
    ∧ (∀ ps qs : List Player, scoresLe ps qs → nonnegScores ps → nonnegScores qs) := by
  refine ⟨submitAnswer_scoresLe, submitVote_scoresLe, handleTimerEnd_scoresLe, ?_, ?_, ?_⟩
  · intro m room name sid newId g hg
    unfold mgrAddPlayer
    rw [hg]
    dsimp only
    cases hfound : getPlayerByName g name with
    | none =>
        refine ⟨_, alistGet_set_self _ _ _, ?_, ?_⟩
        · show scoresLe g.players ((g.players ++
            [Player.mk newId name (some sid) 0 true false]).take g.players.length)
          rw [List.take_left]
          exact scoresLe_refl _
        · show ∀ p ∈ (g.players ++
            [Player.mk newId name (some sid) 0 true false]).drop g.players.length, p.score = 0
          rw [List.drop_left]
          intro p hp
          simp only [List.mem_singleton] at hp
          subst hp
          rfl
    | some ex =>
        dsimp only
        by_cases hc : ex.isConnected = true
        · rw [if_pos hc]
          refine ⟨_, alistGet_set_self _ _ _, ?_, ?_⟩
          · show scoresLe g.players ((g.players ++
              [Player.mk newId name (some sid) 0 true false]).take g.players.length)
            rw [List.take_left]
            exact scoresLe_refl _
          · show ∀ p ∈ (g.players ++
              [Player.mk newId name (some sid) 0 true false]).drop g.players.length, p.score = 0
            rw [List.drop_left]
            intro p hp
            simp only [List.mem_singleton] at hp
            subst hp
            rfl
        · rw [if_neg hc]
          refine ⟨_, alistGet_set_self _ _ _, ?_, ?_⟩
          · show scoresLe g.players
              ((rebindFirst g.players name sid).take g.players.length)
            have hlen : (rebindFirst g.players name sid).length = g.players.length := by
              have := congrArg List.length (rebindFirst_scores g.players name sid)
              simpa using this
            rw [← hlen, List.take_length]
            exact scoresLe_of_map_eq _ _ (rebindFirst_scores g.players name sid).symm
          · show ∀ p ∈ (rebindFirst g.players name sid).drop g.players.length, p.score = 0
            have hlen : (rebindFirst g.players name sid).length = g.players.length := by
              have := congrArg List.length (rebindFirst_scores g.players name sid)
              simpa using this
            rw [← hlen, List.drop_length]
            intro p hp
            simp at hp
  · intro m sid room g hg
    unfold mgrHandleDisconnect
    cases hs : alistGet m.socketMap sid with
    | none => exact ⟨g, hg, rfl⟩
    | some rp =>
        dsimp only
        cases hgr : alistGet m.games rp.1 with
        | none => exact ⟨g, hg, rfl⟩
        | some g0 =>
            dsimp only
            by_cases hr : rp.1 = room
            · subst hr
              rw [hg] at hgr
              injection hgr with hgr'
              subst hgr'
              refine ⟨_, alistGet_set_self _ _ _, ?_⟩
              exact disconnectFirst_scores g.players rp.2
            · refine ⟨g, ?_, rfl⟩
              rw [alistGet_set, if_neg hr]
              exact hg
  · exact fun ps qs h hn => nonneg_of_scoresLe h hn

/-- C9 witness: a concrete vote submission never lowers any score, and a
concrete join appends only a score-0 participant. -/
theorem claim9_witness :
    scoresLe gC2.players (submitVote gC2 1 1).players ∧
    (∃ g', alistGet (mgrAddPlayer mgrC4a "R" "Z" 31 9).2.games "R" = some g' ∧
      scoresLe baseGame.players (g'.players.take baseGame.players.length) ∧
      ∀ p ∈ g'.players.drop baseGame.players.length, p.score = 0) :=
  ⟨claim9_scores_monotone.2.1 gC2 1 1,
   claim9_scores_monotone.2.2.2.1 mgrC4a "R" "Z" 31 9 baseGame (by decide)⟩
